import Mathlib

/-!
Verification of the FixDecoder repository: a shallow embedding of the FIX
session controller (src/fix_controller.cc) and the dictionary-driven decoder
(src/fix_decoder.cc), together with theorems settling the specification
claims about framing, envelope validation, sequence-number discipline,
decoding and structural validation.

Byte strings are modelled as `List Nat` (one entry per byte).  SOH is byte 1,
the pipe is byte 124, the equals sign is byte 61.
-/

set_option autoImplicit false
set_option maxRecDepth 100000

namespace FixDec

/-- Convert an ASCII string literal into its byte list. -/
def str (s : String) : List Nat :=
  s.toList.map Char.toNat

/-- ASCII decimal digit test, mirroring `std::isdigit` on bytes. -/
def isDigit (b : Nat) : Bool :=
  decide (48 ≤ b ∧ b ≤ 57)

/-- Value of a most-significant-first ASCII digit list (accumulator fold),
mirroring how `std::from_chars` accumulates a decimal value. -/
def digitsToNat (l : List Nat) : Nat :=
  l.foldl (fun a d => a * 10 + (d - 48)) 0

/-- Digit-extraction loop for decimal rendering, with fuel (the quotient
shrinks on every step, so fuel `n + 1` always suffices). -/
def natToDecimalAux : Nat → Nat → List Nat
  | 0, _ => []
  | fuel + 1, n =>
      if n < 10 then [48 + n]
      else natToDecimalAux fuel (n / 10) ++ [48 + n % 10]

/-- Decimal rendering of a natural number as ASCII bytes, mirroring
`std::to_string` on unsigned values. -/
def natToDecimal (n : Nat) : List Nat :=
  natToDecimalAux (n + 1) n

/-- Decimal rendering of a signed value, mirroring `std::to_string(int)`. -/
def intToDecimal (i : Int) : List Nat :=
  if i < 0 then 45 :: natToDecimal i.natAbs else natToDecimal i.natAbs

/-- Model of the anonymous-namespace `parseUint` helper in fix_controller.cc:
`std::from_chars` into `std::uint32_t`, requiring the whole value to be
consumed.  Empty input, any non-digit byte, or overflow yield failure. -/
def parseUint (v : List Nat) : Option Nat :=
  if v = [] then none
  else if v.all isDigit then
    if digitsToNat v < 2 ^ 32 then some (digitsToNat v) else none
  else none

/-- Model of `std::from_chars` into `int` over a full token: an optional
leading minus sign, then decimal digits, with 32-bit signed range checking. -/
def parseIntK (v : List Nat) : Option Int :=
  match v with
  | 45 :: rest =>
      if rest = [] then none
      else if rest.all isDigit then
        if digitsToNat rest ≤ 2 ^ 31 then some (-(digitsToNat rest : Int)) else none
      else none
  | _ =>
      if v = [] then none
      else if v.all isDigit then
        if digitsToNat v < 2 ^ 31 then some (digitsToNat v : Int) else none
      else none

/-- Three-digit zero-padded decimal rendering (`std::setw(3)`/`setfill('0')`)
of a value below 1000, as used by `toChecksum`. -/
def digits3 (n : Nat) : List Nat :=
  [48 + n / 100, 48 + n / 10 % 10, 48 + n % 10]

/-- Byte sum of a message, as accumulated by `toChecksum` and
`validateChecksum`. -/
def byteSum (l : List Nat) : Nat :=
  l.foldl (fun a b => a + b) 0

/-- Half-open byte slice `[a, b)` of a message, mirroring `substr(a, b - a)`. -/
def slice (l : List Nat) (a b : Nat) : List Nat :=
  (l.drop a).take (b - a)

/-- Does `pat` occur in `l` at index `i`?  (`pat` is a contiguous substring
of `l` starting at `i`.) -/
def occAt (l pat : List Nat) (i : Nat) : Prop :=
  (l.drop i).take pat.length = pat

instance (l pat : List Nat) (i : Nat) : Decidable (occAt l pat i) := by
  unfold occAt
  infer_instance

/-- First occurrence of `pat` in `l`, mirroring `std::string::find`. -/
def findSub (pat : List Nat) : List Nat → Option Nat
  | [] => if pat = [] then some 0 else none
  | b :: t =>
      if (b :: t).take pat.length = pat then some 0
      else Option.map (· + 1) (findSub pat t)

/-- First occurrence of `pat` in `l` at index `≥ start`, mirroring
`std::string::find(pat, start)`. -/
def findFrom (pat : List Nat) (l : List Nat) (start : Nat) : Option Nat :=
  Option.map (· + start) (findSub pat (l.drop start))

/-- Last occurrence of `pat` in `l`, mirroring `std::string::rfind`. -/
def rfindSub (pat : List Nat) : List Nat → Option Nat
  | [] => if pat = [] then some 0 else none
  | b :: t =>
      match rfindSub pat t with
      | some i => some (i + 1)
      | none => if (b :: t).take pat.length = pat then some 0 else none

/-! ### Session controller (src/fix_controller.cc) -/

/-- `Controller::Role`. -/
inductive Role where
  | initiator
  | acceptor
  deriving DecidableEq, Repr

/-- `Controller::SessionState`. -/
inductive SessionState where
  | disconnected
  | awaitingLogon
  | established
  | logoutSent
  | terminated
  deriving DecidableEq, Repr

/-- `Controller::MessageDisposition`. -/
inductive MessageDisposition where
  | accepted
  | outOfSync
  | garbled
  deriving DecidableEq, Repr

/-- `Controller::Action`: disposition, outbound frames, emitted events. -/
structure Action where
  disposition : MessageDisposition
  outboundMessages : List (List Nat)
  events : List (List Nat)
  deriving DecidableEq, Repr

/-- The controller state: identity and session fields of `fix::Controller`.
The wall clock sampled by `utcTimestamp` is modelled by the `now` field (the
spec makes the timestamp source a replaceable clock; no claim inspects the
timestamp bytes). -/
structure Ctrl where
  senderCompId : List Nat
  targetCompId : List Nat
  role : Role
  beginString : List Nat
  heartbeatInterval : Int
  state : SessionState := SessionState.disconnected
  expectedIncomingSeq : Nat := 1
  nextOutgoingSeq : Nat := 1
  logonSent : Bool := false
  logonReceived : Bool := false
  streamBuffer : List Nat := []
  now : List Nat
  deriving DecidableEq, Repr

/-- `toChecksum`: three-digit zero-padded byte sum mod 256.  The C++ helper
reduces mod 256 at each step, which equals reducing the total once. -/
def toChecksum (l : List Nat) : List Nat :=
  digits3 (byteSum l % 256)

/-- Concatenation of caller-supplied `tag=value` fields, as appended by
`buildMessageWithSeqNum`. -/
def fieldsBytes (fields : List (Int × List Nat)) : List Nat :=
  fields.foldr (fun p acc => intToDecimal p.1 ++ [61] ++ p.2 ++ [1] ++ acc) []

/-- The body assembled by `Controller::buildMessageWithSeqNum`:
`35=`, `34=`, `49=`, `56=`, `52=` then the caller fields, SOH-terminated. -/
def buildBody (c : Ctrl) (msgType : List Nat) (fields : List (Int × List Nat))
    (seqNum : Nat) : List Nat :=
  str "35=" ++ msgType ++ [1] ++
  str "34=" ++ natToDecimal seqNum ++ [1] ++
  str "49=" ++ c.senderCompId ++ [1] ++
  str "56=" ++ c.targetCompId ++ [1] ++
  str "52=" ++ c.now ++ [1] ++
  fieldsBytes fields

/-- `Controller::buildMessageWithSeqNum`: envelope `8=`, `9=<len(body)>`,
body, `10=<checksum>`. -/
def buildMessageWithSeqNum (c : Ctrl) (msgType : List Nat)
    (fields : List (Int × List Nat)) (seqNum : Nat) : List Nat :=
  let body := buildBody c msgType fields seqNum
  let pre := str "8=" ++ c.beginString ++ [1] ++
             str "9=" ++ natToDecimal body.length ++ [1] ++ body
  pre ++ str "10=" ++ toChecksum pre ++ [1]

/-- `Controller::buildMessage`: build with `next_outgoing_seq_num_` and
post-increment it (32-bit wraparound made explicit). -/
def buildMessage (c : Ctrl) (msgType : List Nat)
    (fields : List (Int × List Nat)) : Ctrl × List Nat :=
  ({c with nextOutgoingSeq := (c.nextOutgoingSeq + 1) % 2 ^ 32},
   buildMessageWithSeqNum c msgType fields c.nextOutgoingSeq)

/-- `Controller::buildLogon`. -/
def buildLogon (c : Ctrl) (resetSeqNum : Bool) : Ctrl × List Nat :=
  let fields := [((98 : Int), str "0"), ((108 : Int), intToDecimal c.heartbeatInterval)]
  let fields := if resetSeqNum then fields ++ [((141 : Int), str "Y")] else fields
  let c := if resetSeqNum then {c with expectedIncomingSeq := 1, nextOutgoingSeq := 1} else c
  buildMessage {c with logonSent := true, state := SessionState.awaitingLogon} (str "A") fields

/-- `Controller::buildHeartbeat`. -/
def buildHeartbeat (c : Ctrl) (testReqId : List Nat) : Ctrl × List Nat :=
  buildMessage c (str "0") (if testReqId = [] then [] else [((112 : Int), testReqId)])

/-- `Controller::buildTestRequest`. -/
def buildTestRequest (c : Ctrl) (testReqId : List Nat) : Ctrl × List Nat :=
  buildMessage c (str "1") [((112 : Int), testReqId)]

/-- `Controller::buildLogout`. -/
def buildLogout (c : Ctrl) (text : List Nat) : Ctrl × List Nat :=
  buildMessage {c with state := SessionState.logoutSent} (str "5")
    (if text = [] then [] else [((58 : Int), text)])

/-- `Controller::buildApplicationMessage`. -/
def buildApplicationMessage (c : Ctrl) (msgType : List Nat)
    (fields : List (Int × List Nat)) : Ctrl × List Nat :=
  buildMessage c msgType fields

/-- `Controller::buildResendRequest`. -/
def buildResendRequest (c : Ctrl) (beginSeqNo endSeqNo : Nat) : Ctrl × List Nat :=
  buildMessage c (str "2") [((7 : Int), natToDecimal beginSeqNo), ((16 : Int), natToDecimal endSeqNo)]

/-- `Controller::normalize`: replace every pipe (124) by SOH (1). -/
def normalize (message : List Nat) : List Nat :=
  message.map (fun b => if b = 124 then 1 else b)

/-- The four-byte trailer marker `SOH 1 0 =` searched by `consume`,
`validateChecksum` and `validateBodyLength`. -/
def trailerPat : List Nat := [1, 49, 48, 61]

/-- The loop body of `Controller::consume`, with explicit fuel (the C++
`while(true)` loop shortens the buffer on every path that continues). -/
def consumeLoop : Nat → List Nat → List (List Nat) × List Nat
  | 0, buf => ([], buf)
  | fuel + 1, buf =>
      match findSub (str "8=") buf with
      | none => ([], [])
      | some b =>
          let buf := buf.drop b
          match findSub trailerPat buf with
          | none => ([], buf)
          | some tr =>
              if buf.length < tr + 8 then ([], buf)
              else if (slice buf (tr + 4) (tr + 7)).all isDigit ∧
                      slice buf (tr + 7) (tr + 8) = [1] then
                let r := consumeLoop fuel (buf.drop (tr + 8))
                (buf.take (tr + 8) :: r.1, r.2)
              else consumeLoop fuel (buf.drop (tr + 1))

/-- `Controller::consume`: append normalized bytes to the stream buffer and
extract complete frames.  Fuel `length + 1` is sufficient, as every loop
iteration that continues drops at least one byte. -/
def consume (c : Ctrl) (incomingBytes : List Nat) : Ctrl × List (List Nat) :=
  let buf := c.streamBuffer ++ normalize incomingBytes
  let r := consumeLoop (buf.length + 1) buf
  ({c with streamBuffer := r.2}, r.1)

/-- `Controller::ParseErrorCode`. -/
inductive ParseErrorCode where
  | none
  | missingFieldTerminator
  | malformedTagValue
  | tagNotNumeric
  | invalidMsgSeqNum
  | missingMsgType
  | missingMsgSeqNum
  deriving DecidableEq, Repr

/-- `Controller::ParseError`. -/
structure ParseError where
  code : ParseErrorCode
  field : Int
  deriving DecidableEq, Repr

/-- An ordered `(tag, value)` field as parsed by `Controller::parseMessage`. -/
structure ParsedMessage where
  orderedFields : List (Int × List Nat)
  msgType : List Nat
  seqNum : Nat
  hasSeqNum : Bool
  deriving DecidableEq, Repr

/-- The tokenizing loop of `Controller::parseMessage`: split on SOH, require
a terminator for every token, an equals sign inside the token, and a fully
numeric tag.  Fuel (each step drops at least one byte, so `length + 1`
always suffices). -/
def parseFieldsAux : Nat → List Nat → Except ParseError (List (Int × List Nat))
  | 0, _ => Except.ok []
  | _ + 1, [] => Except.ok []
  | fuel + 1, b :: t =>
      let tok := (b :: t).takeWhile (fun x => x != 1)
      if tok.length = (b :: t).length then
        Except.error ⟨ParseErrorCode.missingFieldTerminator, 0⟩
      else
        let pre := tok.takeWhile (fun x => x != 61)
        if pre.length = tok.length then
          Except.error ⟨ParseErrorCode.malformedTagValue, 0⟩
        else
          match parseIntK pre with
          | none => Except.error ⟨ParseErrorCode.tagNotNumeric, 0⟩
          | some tag =>
              match parseFieldsAux fuel ((b :: t).drop (tok.length + 1)) with
              | Except.error e => Except.error e
              | Except.ok rest => Except.ok ((tag, tok.drop (pre.length + 1)) :: rest)

/-- The metadata scan of `Controller::parseMessage` over the parsed fields:
tag 35 sets the message type, tag 34 must parse as `uint32`. -/
def scanFields (flds : List (Int × List Nat)) (p : ParsedMessage) :
    Except ParseError ParsedMessage :=
  match flds with
  | [] => Except.ok p
  | (t, v) :: rest =>
      if t = 35 then scanFields rest {p with msgType := v}
      else if t = 34 then
        match parseUint v with
        | none => Except.error ⟨ParseErrorCode.invalidMsgSeqNum, 34⟩
        | some n => scanFields rest {p with seqNum := n, hasSeqNum := true}
      else scanFields rest p

/-- `Controller::parseMessage`. -/
def parseMessage (nm : List Nat) : Except ParseError ParsedMessage :=
  match parseFieldsAux (nm.length + 1) nm with
  | Except.error e => Except.error e
  | Except.ok flds =>
      match scanFields flds ⟨flds, [], 0, false⟩ with
      | Except.error e => Except.error e
      | Except.ok p =>
          if p.msgType = [] then Except.error ⟨ParseErrorCode.missingMsgType, 35⟩
          else if p.hasSeqNum = false then Except.error ⟨ParseErrorCode.missingMsgSeqNum, 34⟩
          else Except.ok p

/-- `Controller::parseErrorText`. -/
def parseErrorText (e : ParseError) : List Nat :=
  let withField := fun (base : List Nat) =>
    if e.field > 0 then base ++ str " (tag " ++ intToDecimal e.field ++ str ")" else base
  match e.code with
  | ParseErrorCode.missingFieldTerminator => withField (str "Missing SOH-delimited field terminator")
  | ParseErrorCode.malformedTagValue => withField (str "Malformed tag=value field")
  | ParseErrorCode.tagNotNumeric => withField (str "Tag is not numeric")
  | ParseErrorCode.invalidMsgSeqNum => withField (str "Invalid MsgSeqNum")
  | ParseErrorCode.missingMsgType => withField (str "Missing MsgType")
  | ParseErrorCode.missingMsgSeqNum => withField (str "Missing MsgSeqNum")
  | ParseErrorCode.none => withField (str "Malformed FIX message")

/-- `Controller::validateChecksum`: locate the last `SOH 1 0 =`, require it
to start the final 8 bytes, require three digits, compare against the byte
sum of everything up to and including that SOH. -/
def validateChecksum (m : List Nat) : Bool :=
  match rfindSub trailerPat m with
  | none => false
  | some tr =>
      if tr + 8 ≠ m.length then false
      else
        let ds := slice m (tr + 4) (tr + 7)
        if ds.all isDigit then decide (byteSum (m.take (tr + 1)) % 256 = digitsToNat ds)
        else false

/-- `Controller::validateBodyLength`: find the first SOH, the next SOH and
the first equals sign after the first SOH, require the second field to start
with `9=`, parse the declared length, and compare it with the distance from
the second SOH to the last `SOH 1 0 =` occurrence. -/
def validateBodyLength (m : List Nat) : Bool :=
  match findSub [1] m with
  | none => false
  | some b0 =>
      match findFrom [1] m (b0 + 1) with
      | none => false
      | some b1 =>
          match findFrom [61] m (b0 + 1) with
          | none => false
          | some eq =>
              if b1 < eq then false
              else if slice m (b0 + 1) (b0 + 3) ≠ [57, 61] then false
              else
                match parseUint (slice m (eq + 1) b1) with
                | none => false
                | some n =>
                    match rfindSub trailerPat m with
                    | none => false
                    | some tr => if tr < b1 then false else decide (tr - b1 = n)

/-- `Controller::fieldValue`: the value of the first field with the given
tag, empty if absent. -/
def fieldValue (p : ParsedMessage) (tag : Int) : List Nat :=
  match p.orderedFields.find? (fun f => f.1 == tag) with
  | some f => f.2
  | none => []

/-- The in-sequence part of `Controller::onMessage` (steps after the
expected sequence number has been incremented), dispatching on MsgType. -/
def onInSeq (c : Ctrl) (p : ParsedMessage) : Ctrl × Action :=
  if p.msgType = str "A" then
    let c := {c with logonReceived := true}
    let r := if c.logonSent = false ∧ c.role = Role.acceptor then
               let r0 := buildLogon c false
               (r0.1, [r0.2])
             else (c, [])
    ({r.1 with state := SessionState.established},
     ⟨MessageDisposition.accepted, r.2, [str "logon"]⟩)
  else if c.logonReceived = false ∧ p.msgType ≠ str "5" then
    let r := buildLogout c (str "Expected Logon")
    ({r.1 with state := SessionState.terminated},
     ⟨MessageDisposition.outOfSync, [r.2], [str "logon_required"]⟩)
  else if p.msgType = str "1" then
    let r := buildHeartbeat c (fieldValue p 112)
    (r.1, ⟨MessageDisposition.accepted, [r.2], [str "test_request"]⟩)
  else if p.msgType = str "5" then
    if c.state ≠ SessionState.logoutSent then
      let r := buildLogout c (str "Logout Ack")
      ({r.1 with state := SessionState.terminated},
       ⟨MessageDisposition.accepted, [r.2], [str "logout"]⟩)
    else
      ({c with state := SessionState.terminated},
       ⟨MessageDisposition.accepted, [], [str "logout"]⟩)
  else if p.msgType = str "2" then
    (c, ⟨MessageDisposition.accepted, [], [str "resend_request"]⟩)
  else if p.msgType = str "4" then
    match parseUint (fieldValue p 36) with
    | some n =>
        if c.expectedIncomingSeq ≤ n then
          ({c with expectedIncomingSeq := n},
           ⟨MessageDisposition.accepted, [], [str "sequence_reset"]⟩)
        else (c, ⟨MessageDisposition.accepted, [], []⟩)
    | none => (c, ⟨MessageDisposition.accepted, [], []⟩)
  else if p.msgType = str "0" then
    (c, ⟨MessageDisposition.accepted, [], [str "heartbeat"]⟩)
  else
    (c, ⟨MessageDisposition.accepted, [], [str "application_message"]⟩)

/-- CompID equality and sequence comparison steps of `Controller::onMessage`
over a successfully parsed frame. -/
def onParsed (c : Ctrl) (p : ParsedMessage) : Ctrl × Action :=
  if fieldValue p 49 ≠ c.targetCompId ∨ fieldValue p 56 ≠ c.senderCompId then
    let r := buildLogout c (str "CompID mismatch")
    ({r.1 with state := SessionState.terminated},
     ⟨MessageDisposition.garbled, [r.2], [str "comp_id_mismatch"]⟩)
  else if c.expectedIncomingSeq < p.seqNum then
    let r := buildResendRequest c c.expectedIncomingSeq 0
    (r.1, ⟨MessageDisposition.outOfSync, [r.2], [str "sequence_gap"]⟩)
  else if p.seqNum < c.expectedIncomingSeq then
    let r := buildLogout c (str "MsgSeqNum too low")
    ({r.1 with state := SessionState.terminated},
     ⟨MessageDisposition.outOfSync, [r.2], [str "sequence_too_low"]⟩)
  else
    onInSeq {c with expectedIncomingSeq := (c.expectedIncomingSeq + 1) % 2 ^ 32} p

/-- `Controller::onMessage`: envelope validation, parsing, CompID check,
sequence check, then MsgType dispatch. -/
def onMessage (c : Ctrl) (rawMessage : List Nat) : Ctrl × Action :=
  let nm := normalize rawMessage
  if validateBodyLength nm = false ∨ validateChecksum nm = false then
    let r := buildMessage c (str "3") [((58 : Int), str "Invalid BodyLength or CheckSum")]
    (r.1, ⟨MessageDisposition.garbled, [r.2], [str "garbled_message"]⟩)
  else
    match parseMessage nm with
    | Except.error e =>
        let r := buildMessage c (str "3") [((58 : Int), parseErrorText e)]
        (r.1, ⟨MessageDisposition.garbled, [r.2], [str "garbled_message"]⟩)
    | Except.ok p => onParsed c p

/-! ### Decoder (src/fix_decoder.cc) -/

/-- `Decoder::normalizeMessage`: replace pipes by SOH only when the input
contains no SOH and at least one pipe; otherwise return the input
unchanged. -/
def normalizeMessage (raw : List Nat) : List Nat :=
  if raw.contains 1 = false ∧ raw.contains 124 = true then normalize raw else raw

/-- SOH-separated tokens of a message, as scanned by `Decoder::splitTags`,
`extractTagValue` and `Controller::parseMessage`: a trailing token without a
terminator is still a token, but a trailing terminator does not open an
empty final token. -/
def splitTokens : List Nat → List (List Nat)
  | [] => []
  | b :: t =>
      if b = 1 then [] :: splitTokens t
      else
        match splitTokens t with
        | [] => [[b]]
        | x :: xs => (b :: x) :: xs

/-- One token of `Decoder::splitTags`: require an equals sign, a fully
numeric tag via `std::from_chars(int)`, and a positive tag. -/
def tokenToField (tok : List Nat) : Option (Nat × List Nat) :=
  let pre := tok.takeWhile (fun x => x != 61)
  if pre.length = tok.length then none
  else
    match parseIntK pre with
    | some tag => if 0 < tag then some (tag.toNat, tok.drop (pre.length + 1)) else none
    | none => none

/-- `Decoder::splitTags`. -/
def splitTags (message : List Nat) : List (Nat × List Nat) :=
  (splitTokens message).filterMap tokenToField

/-- `extractTagValue` (fix_decoder.cc anonymous namespace): the value of the
first token whose tag parses to `wanted`, or empty when absent. -/
def extractTagValue (message : List Nat) (wanted : Int) : List Nat :=
  match (splitTokens message).findSome? (fun tok =>
    let pre := tok.takeWhile (fun x => x != 61)
    if pre.length = tok.length then none
    else
      match parseIntK pre with
      | some tag => if tag = wanted then some (tok.drop (pre.length + 1)) else none
      | none => none) with
  | some v => v
  | none => []

/-- `applicationVersionIdToBeginString`: the fixed ApplVerID mapping table;
unknown values map to themselves. -/
def applVerIdToBeginString (v : List Nat) : List Nat :=
  if v = str "2" then str "FIX.4.0"
  else if v = str "3" then str "FIX.4.1"
  else if v = str "4" then str "FIX.4.2"
  else if v = str "5" then str "FIX.4.3"
  else if v = str "6" then str "FIX.4.4"
  else if v = str "7" ∨ v = str "8" ∨ v = str "9" then str "FIX.5.0"
  else v

/-- The begin-string computation of `selectVersionDecoder`: tag 1128
(first occurrence), when non-empty, overrides tag 8 through the mapping
table. -/
def effectiveBeginString (message : List Nat) : List Nat :=
  let beginString := extractTagValue message 8
  let applVerId := extractTagValue message 1128
  if applVerId ≠ [] then applVerIdToBeginString applVerId else beginString

/-- `DecodedObject`, restricted to the claim-relevant parts: the effective
begin string, the message type, and the root tag map.  The typed value of a
field is computed by an abstract decoder function `dv` (the per-version
typed-decoder resolver is external, code-generated data), so the object
model is parametric in the value type `V`.  The root map (`std::map` keyed
by tag in the source) is modelled as an association list; claims observe
only its key set and per-key values. -/
structure DecodedObj (V : Type) where
  beginString : List Nat
  msgType : List Nat
  fields : List (Nat × V)
  deriving Repr

/-- Lookup in the root map of a decoded object. -/
def assocGet {V : Type} (fields : List (Nat × V)) (tag : Nat) : Option V :=
  (fields.find? (fun f => f.1 == tag)).map (fun f => f.2)

/-- The per-field step of the `Decoder::decodeObject` loop: assign
`begin_string` from the first tag 8 only while still empty, `msg_type` from
the first tag 35 only while still empty, and `try_emplace` the typed value
(insert only when the tag is absent, so the first occurrence wins). -/
def decodeObjectStep {V : Type} (dv : Nat → List Nat → V) (d : DecodedObj V)
    (f : Nat × List Nat) : DecodedObj V :=
  let d := if f.1 = 8 ∧ d.beginString = [] then {d with beginString := f.2} else d
  let d := if f.1 = 35 ∧ d.msgType = [] then {d with msgType := f.2} else d
  if d.fields.any (fun g => g.1 == f.1) then d
  else {d with fields := d.fields ++ [(f.1, dv f.1 f.2)]}

/-- `Decoder::decodeObject` (without dictionary validation, which does not
affect the begin string, message type or field map): normalize, split tags,
seed `begin_string` with the effective begin string when non-empty, then
fold the fields. -/
def decodeObject {V : Type} (dv : Nat → List Nat → V) (raw : List Nat) : DecodedObj V :=
  let message := normalizeMessage raw
  (splitTags message).foldl (decodeObjectStep dv) ⟨effectiveBeginString message, [], []⟩

/-- The claim-relevant parts of `DecodedMessage`: begin string, message
type, and the ordered `(tag, raw value)` fields. -/
structure DecodedMsg where
  beginString : List Nat
  msgType : List Nat
  fields : List (Nat × List Nat)
  deriving Repr

/-- The per-field step of the `Decoder::decode` loop: every tag 8 assigns
`begin_string` and every tag 35 assigns `msg_type` (so the last occurrence
wins), and the field is appended in wire order. -/
def decodeMsgStep (d : DecodedMsg) (f : Nat × List Nat) : DecodedMsg :=
  let d := if f.1 = 8 then {d with beginString := f.2} else d
  let d := if f.1 = 35 then {d with msgType := f.2} else d
  {d with fields := d.fields ++ [f]}

/-- `Decoder::decode` (field-list view, claim-relevant parts). -/
def decodeMsg (raw : List Nat) : DecodedMsg :=
  (splitTags (normalizeMessage raw)).foldl decodeMsgStep ⟨[], [], []⟩

/-! ### Dictionary model and structural validation (src/fix_decoder.cc) -/

/-- `MemberKind`. -/
inductive MemberKind where
  | field
  | component
  | group
  deriving DecidableEq, Repr

/-- `Member`: kind, dictionary name, required flag, nested group members. -/
inductive Member where
  | mk (kind : MemberKind) (name : List Nat) (required : Bool) (children : List Member)

/-- Member kind projection. -/
def Member.kind : Member → MemberKind
  | Member.mk k _ _ _ => k

/-- Member name projection. -/
def Member.name : Member → List Nat
  | Member.mk _ n _ _ => n

/-- Member required-flag projection. -/
def Member.required : Member → Bool
  | Member.mk _ _ r _ => r

/-- Member children projection. -/
def Member.children : Member → List Member
  | Member.mk _ _ _ c => c

/-- `FieldDef` (claim-relevant parts). -/
structure FieldDef where
  number : Nat
  name : List Nat
  type : List Nat
  deriving DecidableEq, Repr

/-- The dictionary store: field definitions and named component member
lists (message definitions are not needed by the member-walk claims). -/
structure Dictionary where
  fields : List FieldDef
  components : List (List Nat × List Member)

/-- Modelled from the spec: `Dictionary::fieldByName` is called by the
structural validator but its implementation is not among the provided
sources (only `fieldByNumber` is); per the data model a field name resolves
to at most one field definition. -/
def fieldByName (d : Dictionary) (name : List Nat) : Option FieldDef :=
  d.fields.find? (fun f => f.name == name)

/-- Modelled from the spec: `Dictionary::componentByName`, the name-keyed
component lookup of the dictionary model. -/
def componentByName (d : Dictionary) (name : List Nat) : Option (List Member) :=
  (d.components.find? (fun c => c.1 == name)).map (fun c => c.2)

/-- Validation error text `Missing required field '<name>'`. -/
def msgMissingField (name : List Nat) : List Nat :=
  str "Missing required field " ++ [39] ++ name ++ [39]

/-- Validation error text `Missing required component '<name>'`. -/
def msgMissingComponent (name : List Nat) : List Nat :=
  str "Missing required component " ++ [39] ++ name ++ [39]

/-- Validation error text `Missing required group-count field '<name>'`. -/
def msgMissingGroupCount (name : List Nat) : List Nat :=
  str "Missing required group-count field " ++ [39] ++ name ++ [39]

/-- Validation error text `Invalid group-count value for '<name>'`. -/
def msgInvalidCount (name : List Nat) : List Nat :=
  str "Invalid group-count value for " ++ [39] ++ name ++ [39]

/-- Validation error text
`Group '<name>' count mismatch: declared <d>, actual <a>`. -/
def msgCountMismatch (name : List Nat) (declared actual : Nat) : List Nat :=
  str "Group " ++ [39] ++ name ++ [39] ++ str " count mismatch: declared " ++
  natToDecimal declared ++ str ", actual " ++ natToDecimal actual

mutual

/-- `firstMemberTag` over one member.  Fuel bounds the recursion, which in
the C++ source has no cycle guard; every recursive call decrements it. -/
def firstMemberTagM (d : Dictionary) : Nat → Member → Option Nat
  | 0, _ => none
  | fuel + 1, m =>
      match m.kind with
      | MemberKind.field => (fieldByName d m.name).map (fun f => f.number)
      | MemberKind.group => (fieldByName d m.name).map (fun f => f.number)
      | MemberKind.component =>
          match componentByName d m.name with
          | none => none
          | some ms => firstMemberTagL d fuel ms

/-- `firstMemberTag` over a member list: the first member that yields a
tag. -/
def firstMemberTagL (d : Dictionary) : Nat → List Member → Option Nat
  | 0, _ => none
  | _ + 1, [] => none
  | fuel + 1, m :: rest =>
      match firstMemberTagM d fuel m with
      | some t => some t
      | none => firstMemberTagL d fuel rest

end

/-- A validation walk result: next token index, error list, and the
consumed/handled flag returned by `parseMemberForValidation`. -/
abbrev WalkResult := Nat × List (List Nat) × Bool

mutual

/-- `parseMemberForValidation`: walk one member against the token list
starting at `idx`.  `flds` are the `(tag, value)` validation fields, `enf`
is `enforce_presence`.  Fuel bounds the recursion (the C++ source has no
cycle guard for component expansion); every recursive call decrements it. -/
def parseMemberV (d : Dictionary) (flds : List (Nat × List Nat)) :
    Nat → Member → Nat → List (List Nat) → Bool → WalkResult
  | 0, _, idx, errs, _ => (idx, errs, false)
  | fuel' + 1, m, idx, errs, enf =>
      match m.kind with
      | MemberKind.field =>
          match fieldByName d m.name with
          | none => (idx, errs, false)
          | some fd =>
              if (flds.get? idx).map (fun f => f.1) = some fd.number then (idx + 1, errs, true)
              else if m.required ∧ enf then (idx, errs ++ [msgMissingField m.name], false)
              else (idx, errs, false)
      | MemberKind.component =>
          match componentByName d m.name with
          | none =>
              if m.required ∧ enf then (idx, errs ++ [msgMissingComponent m.name], false)
              else (idx, errs, false)
          | some cms =>
              match firstMemberTagL d fuel' cms with
              | some expected =>
                  if (flds.get? idx).map (fun f => f.1) ≠ some expected then
                    if m.required ∧ enf then (idx, errs ++ [msgMissingComponent m.name], false)
                    else (idx, errs, false)
                  else
                    let r := parseMembersV d flds fuel' cms idx errs true
                    let consumed := decide (idx < r.1)
                    if m.required ∧ enf ∧ consumed = false then
                      (r.1, r.2.1 ++ [msgMissingComponent m.name], consumed)
                    else (r.1, r.2.1, consumed)
              | none =>
                  let r := parseMembersV d flds fuel' cms idx errs true
                  let consumed := decide (idx < r.1)
                  if m.required ∧ enf ∧ consumed = false then
                    (r.1, r.2.1 ++ [msgMissingComponent m.name], consumed)
                  else (r.1, r.2.1, consumed)
      | MemberKind.group =>
          match fieldByName d m.name with
          | none => (idx, errs, false)
          | some cd =>
              if (flds.get? idx).map (fun f => f.1) ≠ some cd.number then
                if m.required ∧ enf then (idx, errs ++ [msgMissingGroupCount m.name], false)
                else (idx, errs, false)
              else
                let countValue := ((flds.get? idx).map (fun f => f.2)).getD []
                match parseIntK countValue with
                | none => (idx + 1, errs ++ [msgInvalidCount m.name], true)
                | some declared =>
                    if declared < 0 then (idx + 1, errs ++ [msgInvalidCount m.name], true)
                    else
                      let r := groupLoopV d flds fuel' m.children declared.toNat (idx + 1) errs
                      if r.2.2 ≠ declared.toNat then
                        (r.1, r.2.1 ++ [msgCountMismatch m.name declared.toNat r.2.2], true)
                      else (r.1, r.2.1, true)

/-- `parseMembersForValidation`: walk every member in order; the overall
consumed flag records whether any member moved the index. -/
def parseMembersV (d : Dictionary) (flds : List (Nat × List Nat)) :
    Nat → List Member → Nat → List (List Nat) → Bool → WalkResult
  | 0, _, idx, errs, _ => (idx, errs, false)
  | _ + 1, [], idx, errs, _ => (idx, errs, false)
  | fuel + 1, m :: rest, idx, errs, enf =>
      let r := parseMemberV d flds fuel m idx errs enf
      let r2 := parseMembersV d flds fuel rest r.1 r.2.1 enf
      (r2.1, r2.2.1, r2.2.2 || decide (idx < r.1))

/-- The declared-count iteration of the group branch: walk the nested
member list up to the declared number of times, stop at the first
iteration that consumes nothing, and report the number of consuming
iterations (the actual count). -/
def groupLoopV (d : Dictionary) (flds : List (Nat × List Nat)) :
    Nat → List Member → Nat → Nat → List (List Nat) →
    Nat × List (List Nat) × Nat
  | 0, _, _, idx, errs => (idx, errs, 0)
  | _ + 1, _, 0, idx, errs => (idx, errs, 0)
  | fuel + 1, children, k + 1, idx, errs =>
      let r := parseMembersV d flds fuel children idx errs true
      if r.1 = idx then (r.1, r.2.1, 0)
      else
        let r2 := groupLoopV d flds fuel children k r.1 r.2.1
        (r2.1, r2.2.1, r2.2.2 + 1)

end

/-! ### Arithmetic and digit lemmas -/

theorem natToDecimalAux_irrel (f1 : Nat) :
    ∀ f2 n, n < f1 → n < f2 → natToDecimalAux f1 n = natToDecimalAux f2 n := by
  induction f1 with
  | zero => intro f2 n h1 _; omega
  | succ f1 ih =>
      intro f2 n h1 h2
      cases f2 with
      | zero => omega
      | succ f2 =>
          rw [natToDecimalAux, natToDecimalAux]
          split
          · rfl
          · rename_i h10
            rw [ih f2 (n / 10) (by omega) (by omega)]

theorem natToDecimal_eq (n : Nat) :
    natToDecimal n =
      if n < 10 then [48 + n] else natToDecimal (n / 10) ++ [48 + n % 10] := by
  rw [natToDecimal, natToDecimalAux]
  split
  · rfl
  · rename_i h10
    rw [natToDecimal]
    congr 1
    exact natToDecimalAux_irrel n (n / 10 + 1) (n / 10) (by omega) (by omega)

theorem natToDecimal_all_digits (n : Nat) : (natToDecimal n).all isDigit = true := by
  induction n using Nat.strong_induction_on with
  | _ n ih =>
    rw [natToDecimal_eq]
    split
    · simp only [List.all_cons, List.all_nil, Bool.and_true, isDigit, decide_eq_true_eq]
      omega
    · rename_i h
      rw [List.all_append]
      refine Bool.and_eq_true_iff.mpr ⟨ih (n / 10) (Nat.div_lt_self (by omega) (by omega)), ?_⟩
      simp only [List.all_cons, List.all_nil, Bool.and_true, isDigit, decide_eq_true_eq]
      omega

theorem natToDecimal_ne_nil (n : Nat) : natToDecimal n ≠ [] := by
  rw [natToDecimal_eq]
  split
  · simp
  · simp

theorem digitsToNat_append (l : List Nat) (x : Nat) :
    digitsToNat (l ++ [x]) = digitsToNat l * 10 + (x - 48) := by
  simp [digitsToNat, List.foldl_append]

theorem digitsToNat_natToDecimal (n : Nat) : digitsToNat (natToDecimal n) = n := by
  induction n using Nat.strong_induction_on with
  | _ n ih =>
    rw [natToDecimal_eq]
    split
    · simp only [digitsToNat, List.foldl_cons, List.foldl_nil]
      omega
    · rename_i h
      rw [digitsToNat_append, ih (n / 10) (Nat.div_lt_self (by omega) (by omega))]
      omega

theorem parseUint_natToDecimal (n : Nat) (h : n < 2 ^ 32) :
    parseUint (natToDecimal n) = some n := by
  rw [parseUint, if_neg (natToDecimal_ne_nil n), natToDecimal_all_digits,
    if_pos rfl, digitsToNat_natToDecimal, if_pos h]

theorem all_digits_not_contains_one (l : List Nat) (h : l.all isDigit = true) :
    l.contains 1 = false := by
  rw [List.all_eq_true] at h
  by_contra hc
  rw [Bool.not_eq_false] at hc
  have := h 1 (List.mem_of_elem_eq_true hc)
  simp [isDigit] at this

theorem natToDecimal_not_contains_one (n : Nat) : (natToDecimal n).contains 1 = false :=
  all_digits_not_contains_one _ (natToDecimal_all_digits n)

theorem digits3_all_digits (n : Nat) (h : n < 1000) : (digits3 n).all isDigit = true := by
  simp only [digits3, List.all_cons, List.all_nil, Bool.and_true, isDigit,
    decide_eq_true_eq, Bool.and_eq_true]
  omega

theorem digitsToNat_digits3 (n : Nat) (h : n < 1000) : digitsToNat (digits3 n) = n := by
  simp only [digits3, digitsToNat, List.foldl_cons, List.foldl_nil]
  omega

/-! ### Lemmas about `findSub`, `findFrom` and `rfindSub` -/

theorem findSub_cons_hit (pat : List Nat) (b : Nat) (t : List Nat)
    (h : (b :: t).take pat.length = pat) : findSub pat (b :: t) = some 0 := by
  rw [findSub, if_pos h]

theorem findSub_cons_miss (pat : List Nat) (b : Nat) (t : List Nat)
    (h : (b :: t).take pat.length ≠ pat) :
    findSub pat (b :: t) = Option.map (· + 1) (findSub pat t) := by
  rw [findSub, if_neg h]

/-- First-occurrence append lemma for a single byte: when the prefix does
not contain the byte, the find lands on the marked occurrence. -/
theorem findSub_byte_append (b : Nat) (xs ys : List Nat)
    (h : xs.contains b = false) :
    findSub [b] (xs ++ b :: ys) = some xs.length := by
  induction xs with
  | nil =>
      simp only [List.nil_append]
      exact findSub_cons_hit _ _ _ (by simp)
  | cons x t ih =>
      simp only [List.contains_cons, Bool.or_eq_false_iff, beq_eq_false_iff_ne] at h
      rw [List.cons_append, findSub_cons_miss, ih h.2]
      · simp
      · intro hc
        rw [show (x :: (t ++ b :: ys)).take (List.length [b]) = [x] from rfl] at hc
        exact h.1 (by injection hc with h1 _; exact h1.symm)

theorem rfindSub_append_some (pat xs ys : List Nat) (i : Nat)
    (h : rfindSub pat ys = some i) :
    rfindSub pat (xs ++ ys) = some (xs.length + i) := by
  induction xs with
  | nil => simpa using h
  | cons x t ih =>
      rw [List.cons_append, rfindSub, ih]
      simp only [List.length_cons]
      congr 1
      omega

/-- The trailer pattern occurs in `SOH 1 0 = d1 d2 d3 SOH` only at the
front, whatever the three bytes are: every later start either begins with a
byte of `10=` or ends on the final SOH where the pattern expects `=`. -/
theorem rfindSub_trailer_block (d1 d2 d3 : Nat) :
    rfindSub trailerPat ([1, 49, 48, 61] ++ [d1, d2, d3, 1]) = some 0 := by
  simp [rfindSub, trailerPat]

/-! ### Concrete fixtures -/

/-- An initiator endpoint `INI → ACC` with a fixed clock. -/
def initiatorCtrl : Ctrl :=
  { senderCompId := str "INI", targetCompId := str "ACC", role := Role.initiator,
    beginString := str "FIX.4.4", heartbeatInterval := 30,
    now := str "20260101-00:00:00.000" }

/-- An acceptor endpoint `ACC → INI` with a fixed clock. -/
def acceptorCtrl : Ctrl :=
  { senderCompId := str "ACC", targetCompId := str "INI", role := Role.acceptor,
    beginString := str "FIX.4.4", heartbeatInterval := 30,
    now := str "20260101-00:00:00.000" }

/-- The acceptor endpoint after its session has been terminated. -/
def terminatedCtrl : Ctrl :=
  { acceptorCtrl with state := SessionState.terminated }

/-- The acceptor endpoint with an established session (logon exchanged). -/
def establishedCtrl : Ctrl :=
  { acceptorCtrl with
    state := SessionState.established
    logonSent := true
    logonReceived := true }

/-- A well-formed inbound Logon (`35=A`, `34=1`) from the initiator. -/
def logonFrame1 : List Nat :=
  buildMessageWithSeqNum initiatorCtrl (str "A")
    [((98 : Int), str "0"), ((108 : Int), str "30")] 1

/-- A well-formed inbound SequenceReset (`35=4`, `34=1`, `36=5`) from the
initiator. -/
def seqResetFrame1 : List Nat :=
  buildMessageWithSeqNum initiatorCtrl (str "4") [((36 : Int), str "5")] 1

/-- A well-formed inbound Heartbeat (`35=0`, `34=1`) from the initiator. -/
def heartbeatFrame1 : List Nat :=
  buildMessageWithSeqNum initiatorCtrl (str "0") [] 1

/-- A minimal framing-valid and envelope-valid FIX frame used for the
stream-reframing claim. -/
def frameF : List Nat :=
  str "8=FIX.4.4" ++ [1] ++ str "9=5" ++ [1] ++ str "35=0" ++ [1] ++ str "10=" ++
  toChecksum (str "8=FIX.4.4" ++ [1] ++ str "9=5" ++ [1] ++ str "35=0" ++ [1]) ++ [1]

/-- Feed a list of byte chunks through `consume`, accumulating the frames
returned by each call. -/
def consumeChunks (c : Ctrl) (chunks : List (List Nat)) : Ctrl × List (List Nat) :=
  chunks.foldl (fun acc ch => let r := consume acc.1 ch; (r.1, acc.2 ++ r.2)) (c, [])

/-- An input carrying `8=FIXT.1.1` together with `1128=9`. -/
def c10ex : List Nat := str "8=FIXT.1.1|1128=9|35=0|"

/-! ### C9: the two normalization functions differ -/

/-- C9: `Decoder::normalizeMessage` returns its input unchanged whenever it
already contains an SOH byte, replaces pipes only when the input has no SOH
and at least one pipe, while `Controller::normalize` replaces every pipe
unconditionally; on the input `SOH |` the two functions disagree. -/
theorem C9_normalization_mismatch :
    (∀ raw : List Nat, raw.contains 1 = true → normalizeMessage raw = raw) ∧
    (∀ raw : List Nat, raw.contains 1 = false → raw.contains 124 = true →
      normalizeMessage raw = normalize raw) ∧
    (∀ raw : List Nat, normalize raw = raw.map (fun b => if b = 124 then 1 else b)) ∧
    (normalizeMessage [1, 124] = [1, 124] ∧ normalize [1, 124] = [1, 1] ∧
      normalizeMessage [1, 124] ≠ normalize [1, 124]) := by
  refine ⟨fun raw h => ?_, fun raw h1 h2 => ?_, fun raw => rfl, by decide⟩
  · rw [normalizeMessage, if_neg]
    intro hc
    rw [h] at hc
    exact absurd hc.1 (by decide)
  · rw [normalizeMessage, if_pos ⟨h1, h2⟩]

/-- Witness for C9 at concrete inputs. -/
theorem C9_witness :
    normalizeMessage [1, 124] = [1, 124] ∧
    normalizeMessage [97, 124] = normalize [97, 124] :=
  ⟨C9_normalization_mismatch.1 [1, 124] (by decide),
   C9_normalization_mismatch.2.1 [97, 124] (by decide) (by decide)⟩

/-! ### C6: decodeObject root map, first occurrence wins -/

theorem assocGet_isSome_iff {V : Type} (fields : List (Nat × V)) (t : Nat) :
    (assocGet fields t).isSome = true ↔ fields.any (fun g => g.1 == t) = true := by
  simp [assocGet, List.find?_isSome, List.any_eq_true]

theorem decodeObjectStep_fields {V : Type} (dv : Nat → List Nat → V)
    (d : DecodedObj V) (f : Nat × List Nat) :
    (decodeObjectStep dv d f).fields =
      if d.fields.any (fun g => g.1 == f.1) then d.fields
      else d.fields ++ [(f.1, dv f.1 f.2)] := by
  simp only [decodeObjectStep]
  split <;> split <;> split <;> rfl

theorem decodeObjectStep_beginString {V : Type} (dv : Nat → List Nat → V)
    (d : DecodedObj V) (f : Nat × List Nat) (h : d.beginString ≠ []) :
    (decodeObjectStep dv d f).beginString = d.beginString := by
  simp only [decodeObjectStep]
  split
  · rename_i hc
    exact absurd hc.2 h
  · split <;> split <;> rfl

theorem assocGet_append {V : Type} (l1 l2 : List (Nat × V)) (t : Nat) :
    assocGet (l1 ++ l2) t = (assocGet l1 t).or (assocGet l2 t) := by
  cases h : List.find? (fun g => g.1 == t) l1 <;>
    simp [assocGet, List.find?_append, h]

theorem assocGet_singleton {V : Type} (k : Nat) (v : V) (t : Nat) :
    assocGet [(k, v)] t = if (k == t) = true then some v else none := by
  by_cases h : (k == t) = true <;> simp [assocGet, List.find?, h]

theorem decodeObject_loop_lookup {V : Type} (dv : Nat → List Nat → V)
    (flds : List (Nat × List Nat)) (d : DecodedObj V) (t : Nat) :
    assocGet ((flds.foldl (decodeObjectStep dv) d)).fields t =
      (assocGet d.fields t).or
        ((flds.find? (fun f => f.1 == t)).map (fun f => dv f.1 f.2)) := by
  induction flds generalizing d with
  | nil => simp
  | cons f rest ih =>
      rw [List.foldl_cons, ih, List.find?_cons]
      by_cases hAny : d.fields.any (fun g => g.1 == f.1) = true
      · rw [decodeObjectStep_fields, if_pos hAny]
        by_cases hft : (f.1 == t) = true
        · have hSome : (assocGet d.fields t).isSome = true := by
            rw [assocGet_isSome_iff, ← eq_of_beq hft]
            exact hAny
          simp only [hft]
          cases hg : assocGet d.fields t with
          | none => rw [hg] at hSome; simp at hSome
          | some w => simp [hg]
        · simp only [Bool.not_eq_true] at hft
          simp only [hft]
      · rw [decodeObjectStep_fields, if_neg hAny, assocGet_append, assocGet_singleton]
        by_cases hft : (f.1 == t) = true
        · have hNone : assocGet d.fields t = none := by
            cases hg : assocGet d.fields t with
            | none => rfl
            | some w =>
                exfalso
                apply hAny
                rw [eq_of_beq hft, ← assocGet_isSome_iff, hg]
                rfl
          simp only [hft, if_pos, hNone]
          simp
        · simp only [Bool.not_eq_true] at hft
          simp only [hft]
          simp [Option.or_assoc]

/-- C6: the root key set of `decodeObject(raw).fields` is the set of tags of
the well-formed `tag=value` tokens of the (normalized) input, and the stored
value of each tag is the typed decoding of its first occurrence in wire
order, so later duplicates never overwrite it.  The typed decoder `dv` is
the abstract per-field decoding function. -/
theorem C6_decode_object_first_wins {V : Type} (dv : Nat → List Nat → V)
    (raw : List Nat) (t : Nat) :
    assocGet (decodeObject dv raw).fields t =
      ((splitTags (normalizeMessage raw)).find? (fun f => f.1 == t)).map
        (fun f => dv f.1 f.2) ∧
    (t ∈ (decodeObject dv raw).fields.map Prod.fst ↔
      t ∈ (splitTags (normalizeMessage raw)).map Prod.fst) := by
  have hmain : assocGet (decodeObject dv raw).fields t =
      ((splitTags (normalizeMessage raw)).find? (fun f => f.1 == t)).map
        (fun f => dv f.1 f.2) := by
    show assocGet ((splitTags (normalizeMessage raw)).foldl (decodeObjectStep dv)
        ⟨effectiveBeginString (normalizeMessage raw), [], []⟩).fields t = _
    rw [decodeObject_loop_lookup]
    simp [assocGet]
  refine ⟨hmain, ?_⟩
  have h1 : (t ∈ (decodeObject dv raw).fields.map Prod.fst) ↔
      (assocGet (decodeObject dv raw).fields t).isSome = true := by
    rw [assocGet_isSome_iff, List.any_eq_true]
    simp [List.mem_map]
  have h2 : (t ∈ (splitTags (normalizeMessage raw)).map Prod.fst) ↔
      (((splitTags (normalizeMessage raw)).find? (fun f => f.1 == t)).isSome = true) := by
    rw [List.find?_isSome]
    simp [List.mem_map]
  rw [h1, h2, hmain]
  cases ((splitTags (normalizeMessage raw)).find? (fun f => f.1 == t)) <;> simp

/-! ### C10: effective begin string vs raw tag 8 -/

/-- The value of the last tag-8 field of a parsed field list (empty if tag 8
never occurs): the spec-side description of what `Decoder::decode` leaves in
`begin_string`. -/
def lastTag8 (flds : List (Nat × List Nat)) : List Nat :=
  flds.foldl (fun acc f => if f.1 = 8 then f.2 else acc) []

theorem decodeObject_loop_beginString {V : Type} (dv : Nat → List Nat → V)
    (flds : List (Nat × List Nat)) (d : DecodedObj V) (h : d.beginString ≠ []) :
    ((flds.foldl (decodeObjectStep dv) d)).beginString = d.beginString := by
  induction flds generalizing d with
  | nil => rfl
  | cons f rest ih =>
      rw [List.foldl_cons]
      rw [ih _ (by rw [decodeObjectStep_beginString _ _ _ h]; exact h)]
      exact decodeObjectStep_beginString _ _ _ h

theorem decodeMsg_loop_beginString (flds : List (Nat × List Nat)) (d : DecodedMsg) :
    ((flds.foldl decodeMsgStep d)).beginString =
      flds.foldl (fun acc f => if f.1 = 8 then f.2 else acc) d.beginString := by
  induction flds generalizing d with
  | nil => rfl
  | cons f rest ih =>
      rw [List.foldl_cons, List.foldl_cons, ih]
      congr 1
      simp only [decodeMsgStep]
      split <;> split <;> rfl

/-- C10: with `1128=9` present, `decodeObject` reports the mapped effective
begin string `FIX.5.0`, while `decode` always reports the raw value of the
last tag-8 field; on `8=FIXT.1.1|1128=9|35=0|` the two views disagree. -/
theorem C10_begin_string_views {V : Type} (dv : Nat → List Nat → V)
    (raw : List Nat)
    (h9 : extractTagValue (normalizeMessage raw) 1128 = str "9") :
    (decodeObject dv raw).beginString = str "FIX.5.0" ∧
    (∀ raw2 : List Nat,
      (decodeMsg raw2).beginString = lastTag8 (splitTags (normalizeMessage raw2))) ∧
    (decodeObject (fun _ v => v) c10ex).beginString = str "FIX.5.0" ∧
    (decodeMsg c10ex).beginString = str "FIXT.1.1" ∧
    (decodeObject (fun _ v => v) c10ex).beginString ≠ (decodeMsg c10ex).beginString := by
  refine ⟨?_, fun raw2 => ?_, by decide, by decide, by decide⟩
  · have heff : effectiveBeginString (normalizeMessage raw) = str "FIX.5.0" := by
      rw [effectiveBeginString, h9, if_pos (by decide : str "9" ≠ [])]
      decide
    show ((splitTags (normalizeMessage raw)).foldl (decodeObjectStep dv)
        ⟨effectiveBeginString (normalizeMessage raw), [], []⟩).beginString = str "FIX.5.0"
    rw [heff]
    rw [decodeObject_loop_beginString dv (splitTags (normalizeMessage raw))
        ⟨str "FIX.5.0", [], []⟩ (by show str "FIX.5.0" ≠ []; decide)]
  · show ((splitTags (normalizeMessage raw2)).foldl decodeMsgStep
        ⟨[], [], []⟩).beginString = lastTag8 (splitTags (normalizeMessage raw2))
    rw [decodeMsg_loop_beginString, lastTag8]

/-- Witness for C10 at the concrete input `8=FIXT.1.1|1128=9|35=0|`. -/
theorem C10_witness :
    (decodeObject (fun _ v => v) c10ex).beginString = str "FIX.5.0" :=
  (C10_begin_string_views (fun _ v => v) c10ex (by decide)).1

/-! ### C2: Terminated is not absorbing -/

/-- C2 counterexample: a terminated controller that processes a well-formed
in-sequence Logon moves to Established (the claim says it must stay
Terminated). -/
theorem C2_counterexample :
    terminatedCtrl.state = SessionState.terminated ∧
    (onMessage terminatedCtrl logonFrame1).2.disposition = MessageDisposition.accepted ∧
    (onMessage terminatedCtrl logonFrame1).1.state = SessionState.established ∧
    (onMessage terminatedCtrl logonFrame1).1.state ≠ SessionState.terminated := by
  decide

/-- C2 amended: `Terminated` is not absorbing.  `buildHeartbeat`,
`buildTestRequest`, `buildResendRequest` and `buildApplicationMessage`
never change the state, but `buildLogon` always moves to AwaitingLogon,
`buildLogout` always moves to LogoutSent (from any state, including
Terminated), and an accepted in-sequence Logon moves a terminated
controller to Established. -/
theorem C2_amended :
    (∀ (c : Ctrl) (id : List Nat), ((buildHeartbeat c id).1).state = c.state) ∧
    (∀ (c : Ctrl) (id : List Nat), ((buildTestRequest c id).1).state = c.state) ∧
    (∀ (c : Ctrl) (b e : Nat), ((buildResendRequest c b e).1).state = c.state) ∧
    (∀ (c : Ctrl) (mt : List Nat) (fl : List (Int × List Nat)),
      ((buildApplicationMessage c mt fl).1).state = c.state) ∧
    (∀ (c : Ctrl) (r : Bool), ((buildLogon c r).1).state = SessionState.awaitingLogon) ∧
    (∀ (c : Ctrl) (t : List Nat), ((buildLogout c t).1).state = SessionState.logoutSent) ∧
    (onMessage terminatedCtrl logonFrame1).1.state = SessionState.established := by
  refine ⟨fun c id => rfl, fun c id => rfl, fun c b e => rfl, fun c mt fl => rfl,
    fun c r => rfl, fun c t => rfl, by decide⟩

/-! ### C3: stream reframing loses bytes at chunk boundaries -/

/-- C3: the frame `frameF` is envelope-valid and is returned whole by a
single `consume` call, but feeding it byte-by-byte (or split after its
first byte) yields no frame at all, because `consume` clears the stream
buffer whenever `8=` is not yet visible; splitting after the first two
bytes works.  This contradicts the specified reframing behavior. -/
theorem C3_consume_loses_split_frames :
    validateBodyLength frameF = true ∧
    validateChecksum frameF = true ∧
    (consume acceptorCtrl frameF).2 = [frameF] ∧
    (consume acceptorCtrl frameF).1.streamBuffer = [] ∧
    (consumeChunks acceptorCtrl (frameF.map (fun b => [b]))).2 = [] ∧
    (consumeChunks acceptorCtrl [frameF.take 1, frameF.drop 1]).2 = [] ∧
    (consumeChunks acceptorCtrl [frameF.take 2, frameF.drop 2]).2 = [frameF] := by
  decide

/-! ### C8: pre-logon traffic terminates the session but still advances the
expected sequence number -/

/-- The parse of the concrete heartbeat frame (used to instantiate C8). -/
def heartbeatParsed1 : ParsedMessage :=
  match parseMessage (normalize heartbeatFrame1) with
  | Except.ok p => p
  | Except.error _ => ⟨[], [], 0, false⟩

/-- C8: a frame that passes envelope and parse checks, whose CompIDs match,
whose sequence number equals the expected one, received while
`logon_received` is false with a MsgType that is neither `A` nor `5`, gets
disposition OutOfSync with event `logon_required` and terminates the
session, yet the expected incoming sequence number is still advanced by one
(the increment happens before the logon-required check). -/
theorem C8_pre_logon_terminates_but_advances (c : Ctrl) (raw : List Nat)
    (p : ParsedMessage)
    (henv1 : validateBodyLength (normalize raw) = true)
    (henv2 : validateChecksum (normalize raw) = true)
    (hp : parseMessage (normalize raw) = Except.ok p)
    (h49 : fieldValue p 49 = c.targetCompId)
    (h56 : fieldValue p 56 = c.senderCompId)
    (hseq : p.seqNum = c.expectedIncomingSeq)
    (hlr : c.logonReceived = false)
    (hA : p.msgType ≠ str "A")
    (h5 : p.msgType ≠ str "5") :
    (onMessage c raw).2.disposition = MessageDisposition.outOfSync ∧
    (onMessage c raw).2.events = [str "logon_required"] ∧
    (onMessage c raw).1.state = SessionState.terminated ∧
    (onMessage c raw).1.expectedIncomingSeq = (c.expectedIncomingSeq + 1) % 2 ^ 32 := by
  have hcond : ¬ (validateBodyLength (normalize raw) = false ∨
      validateChecksum (normalize raw) = false) := by
    simp [henv1, henv2]
  simp only [onMessage, hp, if_neg hcond]
  simp only [onParsed, h49, h56, hseq, ne_eq, not_true_eq_false, false_or, or_self,
    if_false, lt_irrefl, if_neg, ite_false]
  simp only [onInSeq, hlr, hA, h5, ne_eq, not_false_eq_true, and_self, if_true,
    ite_true, if_neg, ite_false, not_true_eq_false]
  simp [buildLogout, buildMessage]

/-- Witness for C8: the acceptor (logon not yet received) processing the
concrete in-sequence heartbeat frame. -/
theorem C8_witness :
    (onMessage acceptorCtrl heartbeatFrame1).2.disposition = MessageDisposition.outOfSync ∧
    (onMessage acceptorCtrl heartbeatFrame1).2.events = [str "logon_required"] ∧
    (onMessage acceptorCtrl heartbeatFrame1).1.state = SessionState.terminated ∧
    (onMessage acceptorCtrl heartbeatFrame1).1.expectedIncomingSeq =
      (acceptorCtrl.expectedIncomingSeq + 1) % 2 ^ 32 :=
  C8_pre_logon_terminates_but_advances acceptorCtrl heartbeatFrame1 heartbeatParsed1
    (by decide) (by decide) (by rfl) (by decide) (by decide) (by decide) (by decide)
    (by decide) (by decide)

/-! ### C1: accepted messages and the expected incoming sequence number -/

theorem onInSeq_expected (c : Ctrl) (p : ParsedMessage)
    (hacc : (onInSeq c p).2.disposition = MessageDisposition.accepted) :
    (onInSeq c p).1.expectedIncomingSeq =
      (if p.msgType = str "4" then
        match parseUint (fieldValue p 36) with
        | some n => if c.expectedIncomingSeq ≤ n then n else c.expectedIncomingSeq
        | none => c.expectedIncomingSeq
      else c.expectedIncomingSeq) := by
  by_cases hA : p.msgType = str "A"
  · simp only [onInSeq, if_pos hA]
    rw [if_neg (show ¬ p.msgType = str "4" by rw [hA]; decide)]
    split <;> simp [buildLogon, buildMessage]
  · simp only [onInSeq, if_neg hA] at hacc ⊢
    by_cases hLR : c.logonReceived = false ∧ p.msgType ≠ str "5"
    · exfalso
      simp only [if_pos hLR] at hacc
      exact absurd hacc (by decide)
    · simp only [if_neg hLR] at hacc ⊢
      by_cases h1 : p.msgType = str "1"
      · simp only [if_pos h1]
        rw [if_neg (show ¬ p.msgType = str "4" by rw [h1]; decide)]
        simp [buildHeartbeat, buildMessage]
      · simp only [if_neg h1] at hacc ⊢
        by_cases h5 : p.msgType = str "5"
        · simp only [if_pos h5]
          rw [if_neg (show ¬ p.msgType = str "4" by rw [h5]; decide)]
          split <;> simp [buildLogout, buildMessage]
        · simp only [if_neg h5] at hacc ⊢
          by_cases h2 : p.msgType = str "2"
          · simp only [if_pos h2]
            rw [if_neg (show ¬ p.msgType = str "4" by rw [h2]; decide)]
          · simp only [if_neg h2] at hacc ⊢
            by_cases h4 : p.msgType = str "4"
            · simp only [if_pos h4]
              cases hu : parseUint (fieldValue p 36) with
              | none => simp
              | some n =>
                  by_cases hle : c.expectedIncomingSeq ≤ n
                  · simp [if_pos hle]
                  · simp [if_neg hle]
            · simp only [if_neg h4]
              by_cases h0 : p.msgType = str "0"
              · simp [if_pos h0]
              · simp [if_neg h0]

/-- C1 counterexample: an accepted SequenceReset (`35=4`, `34=1`, `36=5`)
received at expected sequence 1 leaves the expected incoming sequence at 5,
not at 1 + 1. -/
theorem C1_counterexample :
    (onMessage establishedCtrl seqResetFrame1).2.disposition = MessageDisposition.accepted ∧
    (onMessage establishedCtrl seqResetFrame1).1.expectedIncomingSeq = 5 ∧
    (onMessage establishedCtrl seqResetFrame1).1.expectedIncomingSeq ≠
      establishedCtrl.expectedIncomingSeq + 1 := by
  decide

/-- C1 amended: an accepted `onMessage` advances the expected incoming
sequence number by exactly one (as a 32-bit counter), except for an
accepted SequenceReset whose `36=<newSeq>` parses as an unsigned 32-bit
value at least the incremented counter, which sets the counter to
`newSeq`. -/
theorem C1_amended (c : Ctrl) (raw : List Nat) (p : ParsedMessage)
    (hp : parseMessage (normalize raw) = Except.ok p)
    (hacc : (onMessage c raw).2.disposition = MessageDisposition.accepted) :
    (onMessage c raw).1.expectedIncomingSeq =
      (if p.msgType = str "4" then
        match parseUint (fieldValue p 36) with
        | some n =>
            if (c.expectedIncomingSeq + 1) % 2 ^ 32 ≤ n then n
            else (c.expectedIncomingSeq + 1) % 2 ^ 32
        | none => (c.expectedIncomingSeq + 1) % 2 ^ 32
      else (c.expectedIncomingSeq + 1) % 2 ^ 32) := by
  by_cases he : (validateBodyLength (normalize raw) = false ∨
      validateChecksum (normalize raw) = false)
  · exfalso
    simp only [onMessage, if_pos he] at hacc
    exact absurd hacc (by decide)
  · simp only [onMessage, if_neg he, hp] at hacc ⊢
    by_cases h1 : (fieldValue p 49 ≠ c.targetCompId ∨ fieldValue p 56 ≠ c.senderCompId)
    · exfalso
      simp only [onParsed, if_pos h1] at hacc
      exact absurd hacc (by decide)
    · simp only [onParsed, if_neg h1] at hacc ⊢
      by_cases h2 : c.expectedIncomingSeq < p.seqNum
      · exfalso
        simp only [if_pos h2] at hacc
        exact absurd hacc (by decide)
      · simp only [if_neg h2] at hacc ⊢
        by_cases h3 : p.seqNum < c.expectedIncomingSeq
        · exfalso
          simp only [if_pos h3] at hacc
          exact absurd hacc (by decide)
        · simp only [if_neg h3] at hacc ⊢
          have h := onInSeq_expected
            {c with expectedIncomingSeq := (c.expectedIncomingSeq + 1) % 2 ^ 32} p hacc
          simpa using h

/-- The parse of the concrete SequenceReset frame (used to instantiate
C1). -/
def seqResetParsed1 : ParsedMessage :=
  match parseMessage (normalize seqResetFrame1) with
  | Except.ok p => p
  | Except.error _ => ⟨[], [], 0, false⟩

/-- Witness for C1 at the concrete accepted SequenceReset frame. -/
theorem C1_witness :
    (onMessage establishedCtrl seqResetFrame1).1.expectedIncomingSeq =
      (if seqResetParsed1.msgType = str "4" then
        match parseUint (fieldValue seqResetParsed1 36) with
        | some n =>
            if (establishedCtrl.expectedIncomingSeq + 1) % 2 ^ 32 ≤ n then n
            else (establishedCtrl.expectedIncomingSeq + 1) % 2 ^ 32
        | none => (establishedCtrl.expectedIncomingSeq + 1) % 2 ^ 32
      else (establishedCtrl.expectedIncomingSeq + 1) % 2 ^ 32) :=
  C1_amended establishedCtrl seqResetFrame1 seqResetParsed1 (by rfl) (by decide)

/-! ### C7: group-count structural validation -/

theorem groupLoopV_zero (d : Dictionary) (flds : List (Nat × List Nat))
    (fuel : Nat) (children : List Member) (idx : Nat) (errs : List (List Nat)) :
    groupLoopV d flds fuel children 0 idx errs = (idx, errs, 0) := by
  cases fuel <;> simp [groupLoopV]

theorem groupLoopV_actual_le (d : Dictionary) (flds : List (Nat × List Nat))
    (fuel : Nat) :
    ∀ (children : List Member) (k idx : Nat) (errs : List (List Nat)),
      (groupLoopV d flds fuel children k idx errs).2.2 ≤ k := by
  induction fuel with
  | zero => intro children k idx errs; simp [groupLoopV]
  | succ fuel ih =>
      intro children k idx errs
      cases k with
      | zero => simp [groupLoopV]
      | succ k =>
          rw [groupLoopV]
          split
          · simp
          · have := ih children k
              (parseMembersV d flds fuel children idx errs true).1
              (parseMembersV d flds fuel children idx errs true).2.1
            simpa using Nat.succ_le_succ this

/-- C7: in the group branch of structural validation, when the current
token is the group-count field: a declared count of 0 consumes exactly the
count token and records no error; a non-numeric count value records exactly
`Invalid group-count value for '<name>'` and still consumes exactly the
count token; a numeric count `dcl ≥ 0` runs the declared-count iteration
and appends exactly one `Group '<name>' count mismatch: declared X, actual
Y` error when the number of consuming iterations differs from the declared
count (and no such error otherwise); the actual count never exceeds the
declared count. -/
theorem C7_group_count_validation (d : Dictionary) (flds : List (Nat × List Nat))
    (fuel : Nat) (name : List Nat) (req : Bool) (children : List Member)
    (idx : Nat) (errs : List (List Nat)) (enf : Bool)
    (cd : FieldDef) (fld : Nat × List Nat)
    (hcd : fieldByName d name = some cd)
    (hidx : flds.get? idx = some fld)
    (htag : fld.1 = cd.number) :
    (parseIntK fld.2 = some 0 →
      parseMemberV d flds (fuel + 1) (Member.mk MemberKind.group name req children)
        idx errs enf = (idx + 1, errs, true)) ∧
    (parseIntK fld.2 = none →
      parseMemberV d flds (fuel + 1) (Member.mk MemberKind.group name req children)
        idx errs enf = (idx + 1, errs ++ [msgInvalidCount name], true)) ∧
    (∀ dcl : Int, parseIntK fld.2 = some dcl → 0 ≤ dcl →
      parseMemberV d flds (fuel + 1) (Member.mk MemberKind.group name req children)
        idx errs enf =
        (if (groupLoopV d flds fuel children dcl.toNat (idx + 1) errs).2.2 ≠ dcl.toNat
         then ((groupLoopV d flds fuel children dcl.toNat (idx + 1) errs).1,
           (groupLoopV d flds fuel children dcl.toNat (idx + 1) errs).2.1 ++
             [msgCountMismatch name dcl.toNat
               (groupLoopV d flds fuel children dcl.toNat (idx + 1) errs).2.2], true)
         else ((groupLoopV d flds fuel children dcl.toNat (idx + 1) errs).1,
           (groupLoopV d flds fuel children dcl.toNat (idx + 1) errs).2.1, true))) ∧
    (∀ (ch2 : List Member) (f2 k2 i2 : Nat) (e2 : List (List Nat)),
      (groupLoopV d flds f2 ch2 k2 i2 e2).2.2 ≤ k2) := by
  have hbranch :
      parseMemberV d flds (fuel + 1) (Member.mk MemberKind.group name req children)
          idx errs enf =
        (match parseIntK fld.2 with
          | none => (idx + 1, errs ++ [msgInvalidCount name], true)
          | some declared =>
              if declared < 0 then (idx + 1, errs ++ [msgInvalidCount name], true)
              else
                if (groupLoopV d flds fuel children declared.toNat (idx + 1) errs).2.2 ≠
                    declared.toNat
                then ((groupLoopV d flds fuel children declared.toNat (idx + 1) errs).1,
                  (groupLoopV d flds fuel children declared.toNat (idx + 1) errs).2.1 ++
                    [msgCountMismatch name declared.toNat
                      (groupLoopV d flds fuel children declared.toNat (idx + 1) errs).2.2],
                  true)
                else ((groupLoopV d flds fuel children declared.toNat (idx + 1) errs).1,
                  (groupLoopV d flds fuel children declared.toNat (idx + 1) errs).2.1,
                  true)) := by
    rw [parseMemberV]
    simp only [Member.kind, Member.name, Member.children, hcd, hidx,
      Option.map_some', Option.getD_some]
    rw [if_neg (show ¬ (some fld.1 ≠ some cd.number) by simp [htag])]
  refine ⟨?_, ?_, ?_, fun ch2 f2 k2 i2 e2 => groupLoopV_actual_le d flds f2 ch2 k2 i2 e2⟩
  · intro h0
    rw [hbranch]
    simp only [h0]
    rw [if_neg (by decide : ¬ ((0 : Int) < 0))]
    simp [groupLoopV_zero]
  · intro hn
    rw [hbranch]
    simp only [hn]
  · intro dcl hdcl hge
    rw [hbranch]
    simp only [hdcl]
    rw [if_neg (by omega : ¬ dcl < 0)]

/-- A two-field dictionary for the C7 witness: a group-count field
`NoPartyIDs` (453) and a member field `PartyID` (448). -/
def dict1 : Dictionary :=
  { fields := [⟨453, str "NoPartyIDs", str "NUMINGROUP"⟩, ⟨448, str "PartyID", str "STRING"⟩],
    components := [] }

/-- The group member `NoPartyIDs` with a single nested field `PartyID`. -/
def groupMember1 : Member :=
  Member.mk MemberKind.group (str "NoPartyIDs") true
    [Member.mk MemberKind.field (str "PartyID") true []]

/-- Witness for C7: a declared count of 0 consumes one token with no error;
a non-numeric count value records the invalid-count error and consumes one
token. -/
theorem C7_witness :
    parseMemberV dict1 [(453, str "0")] (5 + 1) groupMember1 0 [] true =
      (1, [], true) ∧
    parseMemberV dict1 [(453, str "x")] (5 + 1) groupMember1 0 [] true =
      (1, [msgInvalidCount (str "NoPartyIDs")], true) :=
  ⟨(C7_group_count_validation dict1 [(453, str "0")] 5 (str "NoPartyIDs") true
      [Member.mk MemberKind.field (str "PartyID") true []] 0 [] true
      ⟨453, str "NoPartyIDs", str "NUMINGROUP"⟩ (453, str "0")
      (by rfl) (by rfl) (by rfl)).1 (by rfl),
   (C7_group_count_validation dict1 [(453, str "x")] 5 (str "NoPartyIDs") true
      [Member.mk MemberKind.field (str "PartyID") true []] 0 [] true
      ⟨453, str "NoPartyIDs", str "NUMINGROUP"⟩ (453, str "x")
      (by rfl) (by rfl) (by rfl)).2.1 (by rfl)⟩

/-! ### Occurrence characterizations of findSub and rfindSub -/

theorem occAt_nil (pat : List Nat) (i : Nat) : occAt [] pat i ↔ pat = [] := by
  simp [occAt, eq_comm]

theorem occAt_cons_succ (b : Nat) (t pat : List Nat) (i : Nat) :
    occAt (b :: t) pat (i + 1) ↔ occAt t pat i := Iff.rfl

theorem occAt_cons_zero (b : Nat) (t pat : List Nat) :
    occAt (b :: t) pat 0 ↔ (b :: t).take pat.length = pat := Iff.rfl

theorem findSub_some_iff (pat : List Nat) :
    ∀ (l : List Nat) (i : Nat),
      findSub pat l = some i ↔ (occAt l pat i ∧ ∀ j, j < i → ¬ occAt l pat j) := by
  intro l
  induction l with
  | nil =>
      intro i
      rw [findSub]
      constructor
      · intro h
        split at h
        · rename_i hp
          injection h with h0
          subst h0
          exact ⟨(occAt_nil pat 0).mpr hp, by omega⟩
        · cases h
      · rintro ⟨hocc, hmin⟩
        have hp := (occAt_nil pat i).mp hocc
        rw [if_pos hp]
        congr 1
        by_contra hi
        exact hmin 0 (by omega) ((occAt_nil pat 0).mpr hp)
  | cons b t ih =>
      intro i
      rw [findSub]
      split
      · rename_i hp
        constructor
        · intro h
          injection h with h0
          subst h0
          exact ⟨hp, by omega⟩
        · rintro ⟨hocc, hmin⟩
          congr 1
          by_contra hi
          exact hmin 0 (by omega) hp
      · rename_i hp
        constructor
        · intro h
          cases hi : findSub pat t with
          | none => rw [hi] at h; cases h
          | some j =>
              rw [hi] at h
              simp only [Option.map_some'] at h
              injection h with h0
              subst h0
              obtain ⟨hocc, hmin⟩ := (ih j).mp hi
              refine ⟨hocc, ?_⟩
              intro k hk
              cases k with
              | zero => exact hp
              | succ k => exact hmin k (by omega)
        · rintro ⟨hocc, hmin⟩
          cases i with
          | zero => exact absurd hocc hp
          | succ i =>
              have : findSub pat t = some i :=
                (ih i).mpr ⟨hocc, fun j hj => hmin (j + 1) (Nat.succ_lt_succ hj)⟩
              rw [this]
              rfl

theorem findSub_none_iff (pat : List Nat) :
    ∀ l : List Nat, findSub pat l = none ↔ ∀ i, ¬ occAt l pat i := by
  intro l
  induction l with
  | nil =>
      rw [findSub]
      split
      · rename_i hp
        simp only [reduceCtorEq, false_iff, not_forall, not_not]
        exact ⟨0, (occAt_nil pat 0).mpr hp⟩
      · rename_i hp
        simp only [true_iff]
        intro i
        rw [occAt_nil]
        exact hp
  | cons b t ih =>
      rw [findSub]
      split
      · rename_i hp
        simp only [reduceCtorEq, false_iff, not_forall, not_not]
        exact ⟨0, hp⟩
      · rename_i hp
        constructor
        · intro h i
          have ht : findSub pat t = none := by
            cases hi : findSub pat t with
            | none => rfl
            | some j => rw [hi] at h; cases h
          cases i with
          | zero => exact hp
          | succ i => exact (ih.mp ht) i
        · intro h
          have ht : findSub pat t = none := ih.mpr (fun i => h (i + 1))
          rw [ht]
          rfl

theorem rfindSub_some_occAt (pat : List Nat) :
    ∀ (l : List Nat) (i : Nat), rfindSub pat l = some i → occAt l pat i := by
  intro l
  induction l with
  | nil =>
      intro i h
      rw [rfindSub] at h
      split at h
      · rename_i hp
        injection h with h0
        subst h0
        exact (occAt_nil pat 0).mpr hp
      · cases h
  | cons b t ih =>
      intro i h
      cases hi : rfindSub pat t with
      | some j =>
          rw [rfindSub, hi] at h
          have h2 : some (j + 1) = some i := h
          injection h2 with h0
          subst h0
          exact (occAt_cons_succ b t pat j).mpr (ih j hi)
      | none =>
          rw [rfindSub, hi] at h
          have h2 : (if List.take pat.length (b :: t) = pat then some 0 else none) = some i := h
          by_cases hc : List.take pat.length (b :: t) = pat
          · rw [if_pos hc] at h2
            injection h2 with h0
            subst h0
            exact hc
          · rw [if_neg hc] at h2
            cases h2

theorem rfindSub_none_iff (pat : List Nat) :
    ∀ l : List Nat, rfindSub pat l = none ↔ ∀ i, ¬ occAt l pat i := by
  intro l
  induction l with
  | nil =>
      rw [rfindSub]
      split
      · rename_i hp
        simp only [reduceCtorEq, false_iff, not_forall, not_not]
        exact ⟨0, (occAt_nil pat 0).mpr hp⟩
      · rename_i hp
        simp only [true_iff]
        intro i
        rw [occAt_nil]
        exact hp
  | cons b t ih =>
      constructor
      · intro h i
        cases hi : rfindSub pat t with
        | some j => rw [rfindSub, hi] at h; simp at h
        | none =>
            rw [rfindSub, hi] at h
            cases i with
            | zero =>
                intro hocc0
                have hc : List.take pat.length (b :: t) = pat := hocc0
                rw [show (match (none : Option Nat) with
                    | some i => some (i + 1)
                    | none => if List.take pat.length (b :: t) = pat then some 0 else none) =
                    (if List.take pat.length (b :: t) = pat then some 0 else none) from rfl,
                  if_pos hc] at h
                cases h
            | succ i => exact (ih.mp hi) i
      · intro h
        have ht : rfindSub pat t = none := ih.mpr (fun i => h (i + 1))
        rw [rfindSub, ht]
        show (if List.take pat.length (b :: t) = pat then some 0 else none) = none
        exact if_neg (fun hc => h 0 hc)

theorem rfindSub_eq_of_last (pat l : List Nat) (p : Nat)
    (hocc : occAt l pat p) (hlast : ∀ q, p < q → ¬ occAt l pat q) :
    rfindSub pat l = some p := by
  induction l generalizing p with
  | nil =>
      exfalso
      have hp := (occAt_nil pat p).mp hocc
      exact hlast (p + 1) (by omega) ((occAt_nil pat (p + 1)).mpr hp)
  | cons b t ih =>
      cases p with
      | zero =>
          have ht : rfindSub pat t = none :=
            (rfindSub_none_iff pat t).mpr
              (fun i hi => hlast (i + 1) (by omega) ((occAt_cons_succ b t pat i).mpr hi))
          rw [rfindSub, ht]
          show (if List.take pat.length (b :: t) = pat then some 0 else none) = some 0
          exact if_pos hocc
      | succ p =>
          have ht : rfindSub pat t = some p :=
            ih p hocc (fun q hq hoq =>
              hlast (q + 1) (by omega) ((occAt_cons_succ b t pat q).mpr hoq))
          rw [rfindSub, ht]

/-! ### C4: every built outbound message passes envelope validation -/

theorem contains_append_false (xs ys : List Nat) (b : Nat)
    (hx : xs.contains b = false) (hy : ys.contains b = false) :
    (xs ++ ys).contains b = false := by
  induction xs with
  | nil => simpa using hy
  | cons x t ih =>
      simp only [List.contains_cons, Bool.or_eq_false_iff] at hx
      simp only [List.cons_append, List.contains_cons, Bool.or_eq_false_iff]
      exact ⟨hx.1, ih hx.2⟩

/-- The checksum tail `10=dddSOH` contains no occurrence of the trailer
pattern: every candidate start either hits a byte of `10=` or the digits,
or runs past the end. -/
theorem no_trailer_in_checksum_tail (d1 d2 d3 : Nat) :
    ∀ i, ¬ occAt ([49, 48, 61] ++ ([d1, d2, d3] ++ [1])) trailerPat i := by
  intro i hocc
  simp only [occAt, trailerPat] at hocc
  rw [show ([1, 49, 48, 61] : List Nat).length = 4 from rfl] at hocc
  have hlen := congrArg List.length hocc
  rw [List.length_take, List.length_drop] at hlen
  rw [show (([49, 48, 61] ++ ([d1, d2, d3] ++ [1])) : List Nat).length = 7 by simp] at hlen
  rw [show (([1, 49, 48, 61] : List Nat)).length = 4 from rfl] at hlen
  have hb : i ≤ 3 := by omega
  interval_cases i <;> simp_all

/-- Every body built by `buildBody` ends with an SOH byte. -/
theorem fieldsBytes_ends_soh :
    ∀ (fl : List (Int × List Nat)) (base : List Nat),
      ∃ X, base ++ [1] ++ fieldsBytes fl = X ++ [1] := by
  intro fl
  induction fl with
  | nil => intro base; exact ⟨base, by simp [fieldsBytes]⟩
  | cons f rest ih =>
      intro base
      obtain ⟨X, hX⟩ := ih (base ++ [1] ++ intToDecimal f.1 ++ [61] ++ f.2)
      refine ⟨X, ?_⟩
      rw [show fieldsBytes (f :: rest) =
        intToDecimal f.1 ++ [61] ++ f.2 ++ [1] ++ fieldsBytes rest from rfl]
      rw [← hX]
      simp [List.append_assoc]

theorem buildBody_ends_soh (c : Ctrl) (msgType : List Nat)
    (fields : List (Int × List Nat)) (seqNum : Nat) :
    ∃ X, buildBody c msgType fields seqNum = X ++ [1] := by
  obtain ⟨X, hX⟩ := fieldsBytes_ends_soh fields
    (str "35=" ++ msgType ++ [1] ++ str "34=" ++ natToDecimal seqNum ++ [1] ++
     str "49=" ++ c.senderCompId ++ [1] ++ str "56=" ++ c.targetCompId ++ [1] ++
     str "52=" ++ c.now)
  refine ⟨X, ?_⟩
  rw [← hX, buildBody]

theorem parseUint_of_digits (ds : List Nat) (hne : ds ≠ [])
    (hdig : ds.all isDigit = true) (hval : digitsToNat ds < 2 ^ 32) :
    parseUint ds = some (digitsToNat ds) := by
  rw [parseUint, if_neg hne, hdig, if_pos rfl, if_pos hval]

/-- Envelope BodyLength validation succeeds on any byte string of the shape
`f1 SOH 9= ds SOH B 10= rest` where `f1` is SOH-free, `ds` is a non-empty
digit string whose value fits in 32 bits and equals the length of `B`, the
byte before `10=` (the last of `SOH B`) is an SOH, and no later trailer
occurrence exists. -/
theorem validateBodyLength_decomp (f1 ds B rest : List Nat)
    (hf1 : f1.contains 1 = false)
    (hne : ds ≠ []) (hdig : ds.all isDigit = true)
    (hval : digitsToNat ds < 2 ^ 32)
    (hlen : B.length = digitsToNat ds)
    (hlast : ([1] ++ B).getLast? = some 1)
    (hno : ∀ i, ¬ occAt ([49, 48, 61] ++ rest) trailerPat i) :
    validateBodyLength
      (f1 ++ ([1] ++ ([57, 61] ++ (ds ++ ([1] ++ (B ++ ([49, 48, 61] ++ rest))))))) = true := by
  set Z := B ++ ([49, 48, 61] ++ rest) with hZ
  set T0 := [57, 61] ++ (ds ++ ([1] ++ Z)) with hT0
  set m := f1 ++ ([1] ++ T0) with hm
  set a := f1.length with ha
  have h_b0 : findSub [1] m = some a := findSub_byte_append 1 f1 T0 hf1
  have h_dropT0 : m.drop (a + 1) = T0 := by
    rw [show m = (f1 ++ [1]) ++ T0 by rw [hm]; simp [List.append_assoc],
      show a + 1 = (f1 ++ [1]).length by simp [ha], List.drop_left]
  have hds1 : ([57, 61] ++ ds).contains 1 = false :=
    contains_append_false [57, 61] ds 1 (by decide) (all_digits_not_contains_one ds hdig)
  have h_inner1 : findSub [1] T0 = some (2 + ds.length) := by
    have h := findSub_byte_append 1 ([57, 61] ++ ds) Z hds1
    rw [show (([57, 61] ++ ds : List Nat)).length = 2 + ds.length by
      simp only [List.length_append, List.length_cons, List.length_nil]] at h
    exact h
  have h_b1 : findFrom [1] m (a + 1) = some (2 + ds.length + (a + 1)) := by
    rw [findFrom, h_dropT0, h_inner1]
    rfl
  have h_inner61 : findSub [61] T0 = some 1 := by
    have h := findSub_byte_append 61 [57] (ds ++ ([1] ++ Z)) (by decide)
    exact h
  have h_eq : findFrom [61] m (a + 1) = some (1 + (a + 1)) := by
    rw [findFrom, h_dropT0, h_inner61]
    rfl
  have h_slice92 : slice m (a + 1) (a + 3) = [57, 61] := by
    rw [slice, h_dropT0, show a + 3 - (a + 1) = 2 by omega, hT0]
    rfl
  have h_sliceds : slice m (1 + (a + 1) + 1) (2 + ds.length + (a + 1)) = ds := by
    rw [slice]
    rw [show 2 + ds.length + (a + 1) - (1 + (a + 1) + 1) = ds.length by omega]
    rw [show 1 + (a + 1) + 1 = (f1 ++ [1] ++ [57, 61]).length by
      simp only [List.length_append, List.length_cons, List.length_nil, ha]; omega]
    rw [show m = (f1 ++ [1] ++ [57, 61]) ++ (ds ++ ([1] ++ Z)) by
      rw [hm, hT0]; simp [List.append_assoc]]
    rw [List.drop_left]
    exact List.take_left ds ([1] ++ Z)
  obtain ⟨Y, hY⟩ := List.getLast?_eq_some_iff.mp hlast
  have hYlen : Y.length = B.length := by
    have := congrArg List.length hY
    simp at this
    omega
  have h3 : ([1] : List Nat) ++ Z = Y ++ ([1] ++ ([49, 48, 61] ++ rest)) := by
    have h4 := congrArg (fun l => l ++ ([49, 48, 61] ++ rest)) hY
    simpa [hZ, List.append_assoc] using h4
  set QQ := f1 ++ ([1] ++ ([57, 61] ++ (ds ++ Y))) with hQQ
  have hQ : m = QQ ++ ([1] ++ ([49, 48, 61] ++ rest)) := by
    rw [hm, hT0, h3, hQQ]
    simp [List.append_assoc]
  have hQQlen : QQ.length = a + 3 + ds.length + B.length := by
    rw [hQQ]
    simp [List.length_append, ha]
    omega
  have h_occ : occAt m trailerPat QQ.length := by
    show (m.drop QQ.length).take trailerPat.length = trailerPat
    rw [hQ, List.drop_left]
    rfl
  have h_nolater : ∀ q, QQ.length < q → ¬ occAt m trailerPat q := by
    intro q hq hocc
    have hq2 : q = QQ.length + ((q - QQ.length - 1) + 1) := by omega
    rw [hQ, hq2] at hocc
    have hocc2 : occAt (([1] ++ ([49, 48, 61] ++ rest))) trailerPat
        ((q - QQ.length - 1) + 1) := by
      unfold occAt at hocc ⊢
      rw [← @List.drop_append Nat QQ ([1] ++ ([49, 48, 61] ++ rest)) ((q - QQ.length - 1) + 1)]
      exact hocc
    exact hno (q - QQ.length - 1) hocc2
  have h_tr : rfindSub trailerPat m = some QQ.length :=
    rfindSub_eq_of_last trailerPat m QQ.length h_occ h_nolater
  simp only [validateBodyLength, h_b0, h_b1, h_eq]
  rw [if_neg (show ¬ (2 + ds.length + (a + 1) < 1 + (a + 1)) by omega)]
  rw [if_neg (show ¬ (slice m (a + 1) (a + 3) ≠ [57, 61]) from fun h => h h_slice92)]
  simp only [h_sliceds, parseUint_of_digits ds hne hdig hval, h_tr]
  rw [if_neg (show ¬ (QQ.length < 2 + ds.length + (a + 1)) by omega)]
  exact decide_eq_true (by omega)

theorem toChecksum_all_digits (l : List Nat) : (toChecksum l).all isDigit = true :=
  digits3_all_digits (byteSum l % 256) (by omega)

theorem digitsToNat_toChecksum (l : List Nat) : digitsToNat (toChecksum l) = byteSum l % 256 :=
  digitsToNat_digits3 (byteSum l % 256) (by omega)

theorem toChecksum_eq_cons (l : List Nat) : ∃ a b e, toChecksum l = [a, b, e] :=
  ⟨48 + byteSum l % 256 / 100, 48 + byteSum l % 256 / 10 % 10, 48 + byteSum l % 256 % 10, rfl⟩

/-- Envelope checksum validation succeeds on any byte string of the shape
`P SOH 10= d1 d2 d3 SOH` whose three checksum digits are decimal digits
encoding the byte sum (mod 256) of `P SOH`. -/
theorem validateChecksum_of_shape (P : List Nat) (d1 d2 d3 : Nat)
    (hdig : ([d1, d2, d3] : List Nat).all isDigit = true)
    (hsum : byteSum (P ++ [1]) % 256 = digitsToNat [d1, d2, d3]) :
    validateChecksum (P ++ ([1] ++ ([49, 48, 61] ++ ([d1, d2, d3] ++ [1])))) = true := by
  set m := P ++ ([1] ++ ([49, 48, 61] ++ ([d1, d2, d3] ++ [1]))) with hm
  have h_occ : occAt m trailerPat P.length := by
    show (m.drop P.length).take trailerPat.length = trailerPat
    rw [hm, List.drop_left]
    rfl
  have h_nolater : ∀ q, P.length < q → ¬ occAt m trailerPat q := by
    intro q hq hocc
    have hq2 : q = P.length + ((q - P.length - 1) + 1) := by omega
    rw [hm, hq2] at hocc
    have hocc2 : occAt ([1] ++ ([49, 48, 61] ++ ([d1, d2, d3] ++ [1]))) trailerPat
        ((q - P.length - 1) + 1) := by
      unfold occAt at hocc ⊢
      rw [← @List.drop_append Nat P ([1] ++ ([49, 48, 61] ++ ([d1, d2, d3] ++ [1])))
        ((q - P.length - 1) + 1)]
      exact hocc
    have hocc3 : occAt ([49, 48, 61] ++ ([d1, d2, d3] ++ [1])) trailerPat
        (q - P.length - 1) :=
      (occAt_cons_succ 1 ([49, 48, 61] ++ ([d1, d2, d3] ++ [1])) trailerPat
        (q - P.length - 1)).mp hocc2
    exact no_trailer_in_checksum_tail d1 d2 d3 (q - P.length - 1) hocc3
  have h_tr : rfindSub trailerPat m = some P.length :=
    rfindSub_eq_of_last trailerPat m P.length h_occ h_nolater
  have h_len : m.length = P.length + 8 := by
    rw [hm]
    simp
  have h_ds : slice m (P.length + 4) (P.length + 7) = [d1, d2, d3] := by
    rw [slice, show P.length + 7 - (P.length + 4) = 3 by omega]
    rw [hm, show P ++ ([1] ++ ([49, 48, 61] ++ ([d1, d2, d3] ++ [1]))) =
      (P ++ [1, 49, 48, 61]) ++ ([d1, d2, d3] ++ [1]) by simp]
    rw [show P.length + 4 = (P ++ ([1, 49, 48, 61] : List Nat)).length by simp]
    rw [List.drop_left]
    rfl
  have h_take : m.take (P.length + 1) = P ++ [1] := by
    rw [hm, show P ++ ([1] ++ ([49, 48, 61] ++ ([d1, d2, d3] ++ [1]))) =
      (P ++ [1]) ++ ([49, 48, 61] ++ ([d1, d2, d3] ++ [1])) by simp]
    rw [show P.length + 1 = (P ++ ([1] : List Nat)).length by simp]
    exact List.take_left _ _
  simp only [validateChecksum, h_tr]
  rw [if_neg (show ¬ (P.length + 8 ≠ m.length) from fun hc => hc (by rw [h_len]))]
  rw [h_ds, if_pos hdig, h_take]
  exact decide_eq_true hsum

/-- Every message assembled by `buildMessageWithSeqNum` passes
`validateChecksum`, with no condition on the controller configuration. -/
theorem validateChecksum_build (c : Ctrl) (mt : List Nat)
    (fl : List (Int × List Nat)) (seq : Nat) :
    validateChecksum (buildMessageWithSeqNum c mt fl seq) = true := by
  obtain ⟨X, hX⟩ := buildBody_ends_soh c mt fl seq
  obtain ⟨d1, d2, d3, hd⟩ := toChecksum_eq_cons (str "8=" ++ c.beginString ++ [1] ++ str "9=" ++
    natToDecimal (buildBody c mt fl seq).length ++ [1] ++ buildBody c mt fl seq)
  have hm : buildMessageWithSeqNum c mt fl seq =
      (str "8=" ++ c.beginString ++ [1] ++ str "9=" ++
        natToDecimal (buildBody c mt fl seq).length ++ [1] ++ X) ++
      ([1] ++ ([49, 48, 61] ++ ([d1, d2, d3] ++ [1]))) := by
    rw [show buildMessageWithSeqNum c mt fl seq =
      (str "8=" ++ c.beginString ++ [1] ++ str "9=" ++
        natToDecimal (buildBody c mt fl seq).length ++ [1] ++ buildBody c mt fl seq) ++
      str "10=" ++ toChecksum (str "8=" ++ c.beginString ++ [1] ++ str "9=" ++
        natToDecimal (buildBody c mt fl seq).length ++ [1] ++ buildBody c mt fl seq) ++ [1]
      from rfl]
    rw [hd, hX]
    rw [show (str "10=" : List Nat) = [49, 48, 61] from rfl]
    simp [List.append_assoc]
  have hPpre : (str "8=" ++ c.beginString ++ [1] ++ str "9=" ++
      natToDecimal (buildBody c mt fl seq).length ++ [1] ++ X) ++ [1] =
      str "8=" ++ c.beginString ++ [1] ++ str "9=" ++
      natToDecimal (buildBody c mt fl seq).length ++ [1] ++ buildBody c mt fl seq := by
    rw [hX]
    simp [List.append_assoc]
  rw [hm]
  apply validateChecksum_of_shape
  · rw [← hd]
    exact toChecksum_all_digits _
  · rw [← hd, hPpre]
    exact (digitsToNat_toChecksum _).symm

/-- Every message assembled by `buildMessageWithSeqNum` passes
`validateBodyLength`, provided the configured BeginString is SOH-free and
the body length fits in 32 bits. -/
theorem validateBodyLength_build (c : Ctrl) (mt : List Nat)
    (fl : List (Int × List Nat)) (seq : Nat)
    (hbs : c.beginString.contains 1 = false)
    (hlen : (buildBody c mt fl seq).length < 2 ^ 32) :
    validateBodyLength (buildMessageWithSeqNum c mt fl seq) = true := by
  obtain ⟨X, hX⟩ := buildBody_ends_soh c mt fl seq
  have hm : buildMessageWithSeqNum c mt fl seq =
      ([56, 61] ++ c.beginString) ++
      ([1] ++ ([57, 61] ++ (natToDecimal (buildBody c mt fl seq).length ++
        ([1] ++ (buildBody c mt fl seq ++
          ([49, 48, 61] ++ (toChecksum (str "8=" ++ c.beginString ++ [1] ++ str "9=" ++
            natToDecimal (buildBody c mt fl seq).length ++ [1] ++
            buildBody c mt fl seq) ++ [1]))))))) := by
    rw [show buildMessageWithSeqNum c mt fl seq =
      (str "8=" ++ c.beginString ++ [1] ++ str "9=" ++
        natToDecimal (buildBody c mt fl seq).length ++ [1] ++ buildBody c mt fl seq) ++
      str "10=" ++ toChecksum (str "8=" ++ c.beginString ++ [1] ++ str "9=" ++
        natToDecimal (buildBody c mt fl seq).length ++ [1] ++ buildBody c mt fl seq) ++ [1]
      from rfl]
    rw [show (str "8=" : List Nat) = [56, 61] from rfl,
        show (str "9=" : List Nat) = [57, 61] from rfl,
        show (str "10=" : List Nat) = [49, 48, 61] from rfl]
    simp [List.append_assoc]
  rw [hm]
  refine validateBodyLength_decomp ([56, 61] ++ c.beginString)
    (natToDecimal (buildBody c mt fl seq).length) (buildBody c mt fl seq)
    (toChecksum (str "8=" ++ c.beginString ++ [1] ++ str "9=" ++
      natToDecimal (buildBody c mt fl seq).length ++ [1] ++ buildBody c mt fl seq) ++ [1])
    ?_ ?_ ?_ ?_ ?_ ?_ ?_
  · exact contains_append_false [56, 61] c.beginString 1 (by decide) hbs
  · exact natToDecimal_ne_nil _
  · exact natToDecimal_all_digits _
  · rw [digitsToNat_natToDecimal]
    exact hlen
  · exact (digitsToNat_natToDecimal _).symm
  · rw [hX, ← List.append_assoc]
    exact List.getLast?_concat _
  · obtain ⟨u1, u2, u3, hu⟩ := toChecksum_eq_cons (str "8=" ++ c.beginString ++ [1] ++
      str "9=" ++ natToDecimal (buildBody c mt fl seq).length ++ [1] ++
      buildBody c mt fl seq)
    intro i
    rw [hu]
    exact no_trailer_in_checksum_tail u1 u2 u3 i

/-- C4: every message assembled by `Controller::buildMessageWithSeqNum` —
hence every outbound message of the `build*` family and of `onMessage`, all
of which route through it via `buildMessage` — passes the controller's own
envelope validation (`validateBodyLength` and `validateChecksum`), provided
the configured BeginString contains no SOH byte and the body length fits in
32 bits (the declared length is parsed back into `uint32_t`). -/
theorem C4_built_messages_validate (c : Ctrl) (mt : List Nat)
    (fl : List (Int × List Nat)) (seq : Nat)
    (hbs : c.beginString.contains 1 = false)
    (hlen : (buildBody c mt fl seq).length < 2 ^ 32) :
    validateBodyLength (buildMessageWithSeqNum c mt fl seq) = true ∧
    validateChecksum (buildMessageWithSeqNum c mt fl seq) = true ∧
    (∀ (c' : Ctrl) (mt' : List Nat) (fl' : List (Int × List Nat)),
      (buildMessage c' mt' fl').2 = buildMessageWithSeqNum c' mt' fl' c'.nextOutgoingSeq) :=
  ⟨validateBodyLength_build c mt fl seq hbs hlen,
   validateChecksum_build c mt fl seq,
   fun _ _ _ => rfl⟩

/-- Witness for C4: the initiator's heartbeat with sequence number 1
validates under both envelope checks. -/
theorem C4_witness :
    initiatorCtrl.beginString.contains 1 = false ∧
    (buildBody initiatorCtrl (str "0") [] 1).length < 2 ^ 32 ∧
    (validateBodyLength (buildMessageWithSeqNum initiatorCtrl (str "0") [] 1) = true ∧
     validateChecksum (buildMessageWithSeqNum initiatorCtrl (str "0") [] 1) = true ∧
     (∀ (c' : Ctrl) (mt' : List Nat) (fl' : List (Int × List Nat)),
       (buildMessage c' mt' fl').2 = buildMessageWithSeqNum c' mt' fl' c'.nextOutgoingSeq)) :=
  ⟨by decide, by decide,
   C4_built_messages_validate initiatorCtrl (str "0") [] 1 (by decide) (by decide)⟩

/-! ### C5: exact characterization of envelope BodyLength validation -/

theorem rfindSub_some_last (pat : List Nat) (hp : pat ≠ []) :
    ∀ (l : List Nat) (i : Nat), rfindSub pat l = some i →
      ∀ q, i < q → ¬ occAt l pat q := by
  intro l
  induction l with
  | nil =>
      intro i h
      rw [rfindSub, if_neg hp] at h
      cases h
  | cons b t ih =>
      intro i h q hq
      cases hi : rfindSub pat t with
      | some j =>
          rw [rfindSub, hi] at h
          have h2 : some (j + 1) = some i := h
          injection h2 with h0
          subst h0
          cases q with
          | zero => exact absurd hq (by omega)
          | succ q2 =>
              intro hocc
              exact ih j hi q2 (by omega) ((occAt_cons_succ b t pat q2).mp hocc)
      | none =>
          rw [rfindSub, hi] at h
          have h2 : (if List.take pat.length (b :: t) = pat then some 0 else none) = some i := h
          by_cases hc : List.take pat.length (b :: t) = pat
          · rw [if_pos hc] at h2
            injection h2 with h0
            subst h0
            cases q with
            | zero => exact absurd hq (by omega)
            | succ q2 =>
                intro hocc
                exact (rfindSub_none_iff pat t).mp hi q2 ((occAt_cons_succ b t pat q2).mp hocc)
          · rw [if_neg hc] at h2
            cases h2

theorem parseUint_some (v : List Nat) (n : Nat) (h : parseUint v = some n) :
    v ≠ [] ∧ v.all isDigit = true ∧ digitsToNat v = n ∧ n < 2 ^ 32 := by
  rw [parseUint] at h
  by_cases h1 : v = []
  · rw [if_pos h1] at h
    cases h
  · rw [if_neg h1] at h
    by_cases h2 : v.all isDigit = true
    · rw [if_pos h2] at h
      by_cases h3 : digitsToNat v < 2 ^ 32
      · rw [if_pos h3] at h
        injection h with h4
        exact ⟨h1, h2, h4, h4 ▸ h3⟩
      · rw [if_neg h3] at h
        cases h
    · rw [if_neg h2] at h
      cases h

theorem occAt_byte_lt_length (m : List Nat) (b i : Nat) (h : occAt m [b] i) :
    i < m.length := by
  have h1 : (m.drop i).take 1 = [b] := h
  by_contra hge
  push_neg at hge
  rw [List.drop_eq_nil_of_le hge] at h1
  simp at h1

theorem occAt_byte_drop (m : List Nat) (b i : Nat) (h : occAt m [b] i) :
    m.drop i = b :: m.drop (i + 1) := by
  have h1 : (m.drop i).take 1 = [b] := h
  have h2 : (m.drop i).drop 1 = m.drop (i + 1) := by
    rw [List.drop_drop, Nat.add_comm]
  cases hd : m.drop i with
  | nil =>
      rw [hd] at h1
      simp at h1
  | cons x t =>
      rw [hd] at h1 h2
      have h3 : ([x] : List Nat) = [b] := h1
      have ht : t = m.drop (i + 1) := h2
      injection h3 with hx htl
      rw [hx, ht]

theorem occAt_byte_split (m : List Nat) (b i : Nat) (h : occAt m [b] i) :
    m = m.take i ++ ([b] ++ m.drop (i + 1)) := by
  conv_lhs => rw [← List.take_append_drop i m]
  rw [occAt_byte_drop m b i h]
  rfl

theorem occAt_drop (l pat : List Nat) (s k : Nat) :
    occAt (l.drop s) pat k ↔ occAt l pat (s + k) := by
  unfold occAt
  rw [List.drop_drop]

theorem take_two_split (l : List Nat) (x y : Nat) (h : l.take 2 = [x, y]) :
    l = x :: y :: l.drop 2 := by
  cases l with
  | nil => simp at h
  | cons a t =>
      cases t with
      | nil => simp at h
      | cons a2 t2 =>
          have h2 : ([a, a2] : List Nat) = [x, y] := h
          injection h2 with h3 h4
          injection h4 with h5 h6
          rw [h3, h5]
          rfl

theorem take_contains_false_of_no_occ (m : List Nat) (b : Nat) :
    ∀ i, (∀ j, j < i → ¬ occAt m [b] j) → (m.take i).contains b = false := by
  induction m with
  | nil =>
      intro i h
      simp
  | cons x t ih =>
      intro i h
      cases i with
      | zero => simp
      | succ i2 =>
          have hx : (b == x) = false := by
            rw [beq_eq_false_iff_ne]
            intro hbx
            apply h 0 (by omega)
            show ((x :: t).drop 0).take 1 = [b]
            rw [hbx]
            rfl
          have ht : (t.take i2).contains b = false :=
            ih i2 (fun j hj hocc =>
              h (j + 1) (by omega) ((occAt_cons_succ x t [b] j).mpr hocc))
          show ((x :: t.take i2)).contains b = false
          simp only [List.contains_cons, Bool.or_eq_false_iff]
          exact ⟨hx, ht⟩

/-- Modelled from the amended reading of the spec (not from the code): the
frame splits as `f1 SOH 9=<ds> SOH rest` where `f1` is SOH-free (its
content — in particular whether it is a tag-8 field — is not inspected),
`ds` is a non-empty digit string whose value `n` fits in `uint32`, and the
last occurrence of the trailer marker `SOH 1 0 =` in the whole frame sits
exactly `n` bytes after the SOH terminating the BodyLength field. -/
def bodyLengthSpec (m : List Nat) : Prop :=
  ∃ f1 ds rest n,
    f1.contains 1 = false ∧
    ds ≠ [] ∧ ds.all isDigit = true ∧ digitsToNat ds = n ∧ n < 2 ^ 32 ∧
    m = f1 ++ ([1] ++ ([57, 61] ++ (ds ++ ([1] ++ rest)))) ∧
    occAt m trailerPat (f1.length + 3 + ds.length + n) ∧
    (∀ q, f1.length + 3 + ds.length + n < q → ¬ occAt m trailerPat q)

theorem validateBodyLength_of_spec (m : List Nat) (h : bodyLengthSpec m) :
    validateBodyLength m = true := by
  obtain ⟨f1, ds, rest, n, hf1, hne, hdig, hn, hlt, hm, hocc, hmax⟩ := h
  subst hn
  subst hm
  set T0 := [57, 61] ++ (ds ++ ([1] ++ rest)) with hT0
  set a := f1.length with ha
  set w := f1 ++ ([1] ++ T0) with hw
  have h_b0 : findSub [1] w = some a := findSub_byte_append 1 f1 T0 hf1
  have h_dropT0 : w.drop (a + 1) = T0 := by
    rw [show w = (f1 ++ [1]) ++ T0 by rw [hw]; simp [List.append_assoc],
      show a + 1 = (f1 ++ [1]).length by simp [ha], List.drop_left]
  have hds1 : ([57, 61] ++ ds).contains 1 = false :=
    contains_append_false [57, 61] ds 1 (by decide) (all_digits_not_contains_one ds hdig)
  have h_inner1 : findSub [1] T0 = some (2 + ds.length) := by
    have h := findSub_byte_append 1 ([57, 61] ++ ds) rest hds1
    rw [show (([57, 61] ++ ds : List Nat)).length = 2 + ds.length by
      simp only [List.length_append, List.length_cons, List.length_nil]] at h
    exact h
  have h_b1 : findFrom [1] w (a + 1) = some (2 + ds.length + (a + 1)) := by
    rw [findFrom, h_dropT0, h_inner1]
    rfl
  have h_inner61 : findSub [61] T0 = some 1 := by
    have h := findSub_byte_append 61 [57] (ds ++ ([1] ++ rest)) (by decide)
    exact h
  have h_eq : findFrom [61] w (a + 1) = some (1 + (a + 1)) := by
    rw [findFrom, h_dropT0, h_inner61]
    rfl
  have h_slice92 : slice w (a + 1) (a + 3) = [57, 61] := by
    rw [slice, h_dropT0, show a + 3 - (a + 1) = 2 by omega, hT0]
    rfl
  have h_sliceds : slice w (1 + (a + 1) + 1) (2 + ds.length + (a + 1)) = ds := by
    rw [slice]
    rw [show 2 + ds.length + (a + 1) - (1 + (a + 1) + 1) = ds.length by omega]
    rw [show 1 + (a + 1) + 1 = (f1 ++ [1] ++ [57, 61]).length by
      simp only [List.length_append, List.length_cons, List.length_nil, ha]; omega]
    rw [show w = (f1 ++ [1] ++ [57, 61]) ++ (ds ++ ([1] ++ rest)) by
      rw [hw, hT0]; simp [List.append_assoc]]
    rw [List.drop_left]
    exact List.take_left ds ([1] ++ rest)
  have h_tr : rfindSub trailerPat w = some (a + 3 + ds.length + digitsToNat ds) :=
    rfindSub_eq_of_last trailerPat w (a + 3 + ds.length + digitsToNat ds) hocc hmax
  simp only [validateBodyLength, h_b0, h_b1, h_eq]
  rw [if_neg (show ¬ (2 + ds.length + (a + 1) < 1 + (a + 1)) by omega)]
  rw [if_neg (show ¬ (slice w (a + 1) (a + 3) ≠ [57, 61]) from fun h2 => h2 h_slice92)]
  simp only [h_sliceds, parseUint_of_digits ds hne hdig hlt, h_tr]
  rw [if_neg (show ¬ (a + 3 + ds.length + digitsToNat ds < 2 + ds.length + (a + 1)) by omega)]
  exact decide_eq_true (by omega)

theorem bodyLengthSpec_of_validate (m : List Nat) (h : validateBodyLength m = true) :
    bodyLengthSpec m := by
  rw [validateBodyLength] at h
  cases hb0 : findSub [1] m with
  | none =>
      simp only [hb0] at h
      cases h
  | some b0 =>
  simp only [hb0] at h
  cases hb1 : findFrom [1] m (b0 + 1) with
  | none =>
      simp only [hb1] at h
      cases h
  | some b1 =>
  simp only [hb1] at h
  cases heqf : findFrom [61] m (b0 + 1) with
  | none =>
      simp only [heqf] at h
      cases h
  | some ep =>
  simp only [heqf] at h
  by_cases hltc : b1 < ep
  · rw [if_pos hltc] at h
    cases h
  rw [if_neg hltc] at h
  by_cases hsl : slice m (b0 + 1) (b0 + 3) ≠ [57, 61]
  · rw [if_pos hsl] at h
    cases h
  rw [if_neg hsl] at h
  have hsl2 : slice m (b0 + 1) (b0 + 3) = [57, 61] := not_ne_iff.mp hsl
  cases hpu : parseUint (slice m (ep + 1) b1) with
  | none =>
      simp only [hpu] at h
      cases h
  | some n =>
  simp only [hpu] at h
  cases htr : rfindSub trailerPat m with
  | none =>
      simp only [htr] at h
      cases h
  | some tr =>
  simp only [htr] at h
  by_cases htlt : tr < b1
  · rw [if_pos htlt] at h
    cases h
  rw [if_neg htlt] at h
  have hdist : tr - b1 = n := of_decide_eq_true h
  obtain ⟨hocc0, hmin0⟩ := (findSub_some_iff [1] m b0).mp hb0
  have hb0len : b0 < m.length := occAt_byte_lt_length m 1 b0 hocc0
  have hf1 : (m.take b0).contains 1 = false := take_contains_false_of_no_occ m 1 b0 hmin0
  rw [findFrom] at hb1
  cases hk : findSub [1] (m.drop (b0 + 1)) with
  | none =>
      rw [hk] at hb1
      cases hb1
  | some k =>
  rw [hk] at hb1
  simp only [Option.map_some'] at hb1
  injection hb1 with hb1e
  obtain ⟨hocck, hmink⟩ := (findSub_some_iff [1] (m.drop (b0 + 1)) k).mp hk
  have hsl3 : (m.drop (b0 + 1)).take 2 = [57, 61] := by
    have h5 : slice m (b0 + 1) (b0 + 3) = (m.drop (b0 + 1)).take 2 := by
      rw [slice, show b0 + 3 - (b0 + 1) = 2 by omega]
    rw [← h5]
    exact hsl2
  have hdropsplit : m.drop (b0 + 1) = 57 :: 61 :: (m.drop (b0 + 1)).drop 2 :=
    take_two_split _ _ _ hsl3
  have hdrop2 : (m.drop (b0 + 1)).drop 2 = m.drop (b0 + 3) := by
    rw [List.drop_drop]
  have hk2 : 2 ≤ k := by
    by_contra hklt
    push_neg at hklt
    interval_cases k
    · have h6 : (m.drop (b0 + 1)).take 1 = [1] := hocck
      rw [hdropsplit] at h6
      simp at h6
    · have h6 : occAt (57 :: 61 :: (m.drop (b0 + 1)).drop 2) [1] 1 := by
        rw [← hdropsplit]
        exact hocck
      have h7 := (occAt_cons_succ 57 (61 :: (m.drop (b0 + 1)).drop 2) [1] 0).mp h6
      simp [occAt] at h7
  have hocc1m : occAt m [1] b1 := by
    have h8 := (occAt_drop m [1] (b0 + 1) k).mp hocck
    rw [show b0 + 1 + k = b1 by omega] at h8
    exact h8
  have hb1len : b1 < m.length := occAt_byte_lt_length m 1 b1 hocc1m
  have h61 : findSub [61] (m.drop (b0 + 1)) = some 1 := by
    rw [hdropsplit]
    rw [findSub]
    rw [if_neg (by simp)]
    rw [findSub]
    rw [if_pos (by simp)]
    rfl
  have hep : ep = b0 + 2 := by
    rw [findFrom, h61] at heqf
    simp only [Option.map_some'] at heqf
    injection heqf with heqe
    omega
  obtain ⟨hdsne, hdsdig, hdsval, hnlt⟩ := parseUint_some _ n hpu
  have hsplit0 : m = m.take b0 ++ ([1] ++ m.drop (b0 + 1)) := occAt_byte_split m 1 b0 hocc0
  have hdropb1 : m.drop b1 = 1 :: m.drop (b1 + 1) := occAt_byte_drop m 1 b1 hocc1m
  have hdssplit : m.drop (b0 + 3) = slice m (b0 + 3) b1 ++ m.drop b1 := by
    rw [slice]
    have h8 : (m.drop (b0 + 3)).drop (b1 - (b0 + 3)) = m.drop b1 := by
      rw [List.drop_drop]
      rw [show b0 + 3 + (b1 - (b0 + 3)) = b1 by omega]
    rw [← h8]
    exact (List.take_append_drop _ _).symm
  have hmfull : m = m.take b0 ++
      ([1] ++ ([57, 61] ++ (slice m (b0 + 3) b1 ++ ([1] ++ m.drop (b1 + 1))))) := by
    conv_lhs => rw [hsplit0]
    rw [hdropsplit, hdrop2, hdssplit, hdropb1]
    rfl
  have htklen : (m.take b0).length = b0 := by
    rw [List.length_take]
    exact min_eq_left (by omega)
  have hdslen : (slice m (b0 + 3) b1).length = b1 - (b0 + 3) := by
    rw [slice, List.length_take, List.length_drop]
    exact min_eq_left (by omega)
  have h9 : (m.take b0).length + 3 + (slice m (b0 + 3) b1).length + n = tr := by
    rw [htklen, hdslen]
    omega
  refine ⟨m.take b0, slice m (b0 + 3) b1, m.drop (b1 + 1), n, hf1, ?_, ?_, ?_, hnlt, ?_, ?_, ?_⟩
  · rw [show b0 + 3 = ep + 1 by omega]
    exact hdsne
  · rw [show b0 + 3 = ep + 1 by omega]
    exact hdsdig
  · rw [show b0 + 3 = ep + 1 by omega]
    exact hdsval
  · exact hmfull
  · rw [h9]
    exact rfindSub_some_occAt trailerPat m tr htr
  · intro q hq
    exact rfindSub_some_last trailerPat (by decide) m tr htr q (by omega)

/-- A frame whose first field has tag 7 (`7=X`), yet passes envelope
BodyLength validation: the validator never inspects the first field's tag. -/
def c5ex : List Nat :=
  str "7=X" ++ ([1] ++ (str "9=0" ++ ([1] ++ str "10=000")))

/-- C5 counterexample: `validateBodyLength` accepts `c5ex`, whose first
field is `7=X`, not a tag-8 field — refuting the claim that a frame whose
first field is not tag 8 fails envelope validation. -/
theorem C5_counterexample :
    validateBodyLength c5ex = true ∧ c5ex.take 2 ≠ str "8=" :=
  ⟨by decide, by decide⟩

/-- C5 (amended): envelope BodyLength validation succeeds exactly on the
frames described by `bodyLengthSpec`: some SOH-free first field (its tag is
NOT checked — it need not be 8), a second field `9=<ds>` with `ds` a
non-empty uint32 digit string, and the last `SOH 1 0 =` occurrence exactly
`digitsToNat ds` bytes after the SOH terminating the BodyLength field. -/
theorem C5_bodylength_iff (m : List Nat) :
    validateBodyLength m = true ↔ bodyLengthSpec m :=
  ⟨bodyLengthSpec_of_validate m, validateBodyLength_of_spec m⟩

/-- Witness for C5: the amended characterization applied at the concrete
frame `c5ex`. -/
theorem C5_witness : bodyLengthSpec c5ex :=
  (C5_bodylength_iff c5ex).mp (by decide)

end FixDec
